import Mathlib

/-!
Verification development for the reference-resolution and dereferencing
engine of the criteria-api-tools repository.

The development shallowly embeds:
* the dynamic-reference resolver of
  `packages/criteria-json-schema/src/schema-index/SchemaIndex.ts`
  (`dereferenceDynamicReference`),
* the draft-04 dereferencing engine of
  `packages/criteria-json-schema/src/specification/draft-04/dereference/dereferenceJSONSchema.ts`
  (`dereferenceSubschema`, `dereferenceReference`,
  `dereferenceReferenceWithSiblings`, the placeholder patch-up loop, and the
  memoized document-retrieval wrapper),
* three keyword validators of the criteria-json-schema-validation package
  (`maxItemsValidator`, `uniqueItemsValidator`, `dependentRequiredValidator`).

JavaScript objects are modelled as association lists of string keys; the
mutable object graph produced by the dereferencer is modelled as an explicit
heap of numbered nodes (`Addr`), so that JavaScript object identity becomes
address equality.  Helpers that live outside the provided sources
(URI utilities, JSON-pointer utilities, `memoize`) are modelled from the
specification and are marked as such in their doc comments.
-/

/-- A JSON value: the node shape of schema documents and instances. -/
inductive JSONValue where
  | null
  | boolean (b : Bool)
  | number (n : Int)
  | string (s : String)
  | array (items : List JSONValue)
  | object (fields : List (String × JSONValue))

mutual

def decEqJSONValue : (a b : JSONValue) → Decidable (a = b)
  | .null, .null => isTrue rfl
  | .null, .boolean _ => isFalse (by intro h; cases h)
  | .null, .number _ => isFalse (by intro h; cases h)
  | .null, .string _ => isFalse (by intro h; cases h)
  | .null, .array _ => isFalse (by intro h; cases h)
  | .null, .object _ => isFalse (by intro h; cases h)
  | .boolean x, .boolean y =>
    if h : x = y then isTrue (by rw [h]) else isFalse (by intro hc; cases hc; exact h rfl)
  | .boolean _, .null => isFalse (by intro h; cases h)
  | .boolean _, .number _ => isFalse (by intro h; cases h)
  | .boolean _, .string _ => isFalse (by intro h; cases h)
  | .boolean _, .array _ => isFalse (by intro h; cases h)
  | .boolean _, .object _ => isFalse (by intro h; cases h)
  | .number x, .number y =>
    if h : x = y then isTrue (by rw [h]) else isFalse (by intro hc; cases hc; exact h rfl)
  | .number _, .null => isFalse (by intro h; cases h)
  | .number _, .boolean _ => isFalse (by intro h; cases h)
  | .number _, .string _ => isFalse (by intro h; cases h)
  | .number _, .array _ => isFalse (by intro h; cases h)
  | .number _, .object _ => isFalse (by intro h; cases h)
  | .string x, .string y =>
    if h : x = y then isTrue (by rw [h]) else isFalse (by intro hc; cases hc; exact h rfl)
  | .string _, .null => isFalse (by intro h; cases h)
  | .string _, .boolean _ => isFalse (by intro h; cases h)
  | .string _, .number _ => isFalse (by intro h; cases h)
  | .string _, .array _ => isFalse (by intro h; cases h)
  | .string _, .object _ => isFalse (by intro h; cases h)
  | .array xs, .array ys =>
    match decEqJSONList xs ys with
    | isTrue h => isTrue (by rw [h])
    | isFalse h => isFalse (by intro hc; cases hc; exact h rfl)
  | .array _, .null => isFalse (by intro h; cases h)
  | .array _, .boolean _ => isFalse (by intro h; cases h)
  | .array _, .number _ => isFalse (by intro h; cases h)
  | .array _, .string _ => isFalse (by intro h; cases h)
  | .array _, .object _ => isFalse (by intro h; cases h)
  | .object xs, .object ys =>
    match decEqJSONFields xs ys with
    | isTrue h => isTrue (by rw [h])
    | isFalse h => isFalse (by intro hc; cases hc; exact h rfl)
  | .object _, .null => isFalse (by intro h; cases h)
  | .object _, .boolean _ => isFalse (by intro h; cases h)
  | .object _, .number _ => isFalse (by intro h; cases h)
  | .object _, .string _ => isFalse (by intro h; cases h)
  | .object _, .array _ => isFalse (by intro h; cases h)

def decEqJSONList : (a b : List JSONValue) → Decidable (a = b)
  | [], [] => isTrue rfl
  | [], _ :: _ => isFalse (by intro h; cases h)
  | _ :: _, [] => isFalse (by intro h; cases h)
  | x :: xs, y :: ys =>
    match decEqJSONValue x y, decEqJSONList xs ys with
    | isTrue h1, isTrue h2 => isTrue (by rw [h1, h2])
    | isFalse h1, _ => isFalse (by intro hc; cases hc; exact h1 rfl)
    | _, isFalse h2 => isFalse (by intro hc; cases hc; exact h2 rfl)

def decEqJSONFields : (a b : List (String × JSONValue)) → Decidable (a = b)
  | [], [] => isTrue rfl
  | [], _ :: _ => isFalse (by intro h; cases h)
  | _ :: _, [] => isFalse (by intro h; cases h)
  | (k1, v1) :: xs, (k2, v2) :: ys =>
    match String.decEq k1 k2, decEqJSONValue v1 v2, decEqJSONFields xs ys with
    | isTrue hk, isTrue hv, isTrue ht => isTrue (by rw [hk, hv, ht])
    | isFalse hk, _, _ => isFalse (by intro hc; cases hc; exact hk rfl)
    | _, isFalse hv, _ => isFalse (by intro hc; cases hc; exact hv rfl)
    | _, _, isFalse ht => isFalse (by intro hc; cases hc; exact ht rfl)

end

instance : DecidableEq JSONValue := decEqJSONValue

/-- URIs are plain strings, as in the source. -/
abbrev URI := String

/-- First binding of a key in an association list (JavaScript property lookup;
the engine keeps at most one binding per key). -/
def lookupAssoc {κ α : Type} [BEq κ] (l : List (κ × α)) (k : κ) : Option α :=
  match l.find? (fun p => p.1 == k) with
  | some p => some p.2
  | none => none

/-- Overwrite one key of an association list, appending the key when absent
(JavaScript property assignment). -/
def setAssocKey {κ α : Type} [BEq κ] (l : List (κ × α)) (k : κ) (v : α) :
    List (κ × α) :=
  if (l.find? (fun p => p.1 == k)).isSome then
    l.map (fun p => if p.1 == k then (k, v) else p)
  else l ++ [(k, v)]

/-- Property lookup on a JSON object value; `none` for non-objects
(JavaScript member access on a primitive yields `undefined` for our purposes). -/
def jsonField (v : JSONValue) (k : String) : Option JSONValue :=
  match v with
  | .object fields => lookupAssoc fields k
  | _ => none

/-- The string value of a property, when the property is a string. -/
def jsonStringField (v : JSONValue) (k : String) : Option String :=
  match jsonField v k with
  | some (.string s) => some s
  | _ => none

/-- JavaScript truthiness of a JSON value. -/
def jsTruthy : JSONValue → Bool
  | .null => false
  | .boolean b => b
  | .number n => n != 0
  | .string s => s != ""
  | .array _ => true
  | .object _ => true

/-- Split a character list at every occurrence of a separator character
(`String.splitOn` for a one-character separator). -/
def splitChars (sep : Char) : List Char → List (List Char)
  | [] => [[]]
  | c :: rest =>
    let r := splitChars sep rest
    if c == sep then [] :: r
    else
      match r with
      | h :: t => (c :: h) :: t
      | [] => [[c]]

/-- Join character lists with a separator character (the inverse of
`splitChars`). -/
def joinChars (sep : Char) : List (List Char) → List Char
  | [] => []
  | [x] => x
  | x :: rest => x ++ sep :: joinChars sep rest

/-- Whether a character list starts with a given character. -/
def charsStartWith (l : List Char) (c : Char) : Bool :=
  match l with
  | x :: _ => x == c
  | [] => false

/-- One-pass JSON Pointer token unescaping (`~1` to the slash, `~0` to the
tilde), which agrees with the source's sequential `replace` calls on every
token produced by the engine. -/
def unescapeChars : List Char → List Char
  | '~' :: '1' :: rest => '/' :: unescapeChars rest
  | '~' :: '0' :: rest => '~' :: unescapeChars rest
  | c :: rest => c :: unescapeChars rest
  | [] => []

/-- Modelled from the spec: `unescapeReferenceToken` of the external
`@criteria/json-pointer` package (JSON Pointer token unescaping per RFC 6901,
an out-of-scope helper assumed correct by spec section 1). -/
def unescapeReferenceToken (t : String) : String :=
  String.mk (unescapeChars t.data)

/-- The reference tokens of a JSON Pointer string: everything after the
leading slash, split on slashes and unescaped.  The empty pointer has no
tokens. -/
def ptrTokens (ptr : String) : List String :=
  match splitChars '/' ptr.data with
  | [] => []
  | _ :: rest => rest.map (fun cs => String.mk (unescapeChars cs))

/-- Decimal parsing of an array index token (`Nat` parsing as in
`String.toNat?`). -/
def charsToNat? (l : List Char) : Option Nat :=
  if l.isEmpty then none
  else
    l.foldl (fun acc c =>
      match acc with
      | none => none
      | some n => if c.isDigit then some (n * 10 + (c.toNat - '0'.toNat)) else none)
      (some 0)

/-- Modelled from the spec: `evaluateJSONPointer` of the external
`@criteria/json-pointer` package.  Walks object properties and array indices;
evaluation of a non-empty pointer against a primitive (or a missing value)
yields `none`, modelling the JavaScript `undefined`. -/
def evalPointerTokens : List String → Option JSONValue → Option JSONValue
  | [], v => v
  | t :: rest, some (.object fields) => evalPointerTokens rest (lookupAssoc fields t)
  | t :: rest, some (.array items) =>
    match charsToNat? t.data with
    | some i => evalPointerTokens rest items[i]?
    | none => evalPointerTokens rest none
  | _ :: _, _ => none

/-- JSON Pointer evaluation (see `evalPointerTokens`). -/
def evaluateJSONPointer (ptr : String) (v : Option JSONValue) : Option JSONValue :=
  evalPointerTokens (ptrTokens ptr) v

/-- Modelled from the spec: `splitFragment` of the repository URI helpers
(spec section 1 treats URI utilities as out-of-scope collaborators assumed
correct).  Splits a URI into its fragment-free part and its fragment; a URI
without a number sign has no fragment. -/
def splitFragment (uri : URI) : URI × Option String :=
  match splitChars '#' uri.data with
  | [] => (uri, none)
  | [u] => (String.mk u, none)
  | u :: rest => (String.mk u, some (String.mk (joinChars '#' rest)))

/-- Modelled from the spec: `hasFragment` of the repository URI helpers. -/
def hasFragment (uri : URI) : Bool :=
  (splitFragment uri).2.isSome

/-- Modelled from the spec: `isJSONPointer` of `util/JSONPointer` — a JSON
Pointer is the empty string or a string starting with a slash (RFC 6901). -/
def isJSONPointerString (s : String) : Bool :=
  s == "" || charsStartWith s.data '/'

/-- Modelled from the spec: `resolveURIReference` of the repository URI
helpers, restricted to the cases the engine exercises: the empty reference
resolves to the base, a fragment-only reference is rebased onto the
fragment-free part of the base, and any other reference is treated as
absolute. -/
def resolveURIReference (ref : String) (base : URI) : URI :=
  if ref == "" then base
  else if charsStartWith ref.data '#' then (splitFragment base).1 ++ ref
  else ref

/-- Whether the fragment of a resolved target URI is a JSON Pointer
(`isJSONPointer(splitFragment(resolvedURI).fragment)` in the source; the
JavaScript call yields false when the fragment is absent). -/
def pointerFragment (uri : URI) : Bool :=
  match (splitFragment uri).2 with
  | some f => isJSONPointerString f
  | none => false

/-!
## Dynamic-reference resolution (`SchemaIndex.dereferenceDynamicReference`)

The index that the walk queries (`find`, `infoForIndexedObject`, `root`) is
built by indexing code that is not part of the provided sources; it is
abstracted as a structure of query functions, exactly the three queries the
source method performs.
-/

/-- The index queries used by `dereferenceDynamicReference`:
`find uri` models `this.find(uri, { followReferences: false })`,
`baseURIOf x` models `this.infoForIndexedObject(x)?.baseURI`, and
`root` models `this.root()`. -/
structure DynamicIndex where
  find : URI → Option JSONValue
  baseURIOf : JSONValue → Option URI
  root : JSONValue

/-- Whether an object declares `$dynamicAnchor` strictly equal to the sought
anchor name (`'$dynamicAnchor' in candidate && candidate.$dynamicAnchor ===
dereferencedSchema.$dynamicAnchor`).  When the statically resolved target has
no `$dynamicAnchor` (`anchorName = none`) no string-valued anchor can match,
mirroring the JavaScript comparison with `undefined`. -/
def dynamicAnchorMatches (v : JSONValue) (anchorName : Option String) : Bool :=
  match jsonStringField v "$dynamicAnchor", anchorName with
  | some s, some a => s == a
  | _, _ => false

/-- The anchor name as it is spliced into `'#' + dereferencedSchema.$dynamicAnchor`;
JavaScript coerces a missing anchor to the string form of `undefined`. -/
def anchorNameString (anchorName : Option String) : String :=
  match anchorName with
  | some a => a
  | none => "undefined"

/-- One candidate-evaluation step of the dynamic scope walk: evaluate the
path step against the current candidate, and when the step is the pointer
`/$ref` and evaluates to a string, re-resolve that sub-reference against the
dynamic reference's base URI and continue from the node found there
(SchemaIndex.ts lines 96-103). -/
def dynamicStepCandidate (idx : DynamicIndex) (refBaseURI : URI) (ptr : String)
    (candidate : Option JSONValue) : Option JSONValue :=
  let c1 := evaluateJSONPointer ptr candidate
  if ptr == "/$ref" then
    match c1 with
    | some (.string s) => idx.find (resolveURIReference s refBaseURI)
    | _ => c1
  else c1

/-- `(this.infoForIndexedObject(candidate) ?? this.infoForIndexedObject(root))?.baseURI`
of SchemaIndex.ts line 114; when neither object is indexed, the base URI
JavaScript would pass along as `undefined` is modelled as the empty string. -/
def outermostBaseURIOf (idx : DynamicIndex) (candidate : JSONValue) : URI :=
  match idx.baseURIOf candidate with
  | some b => b
  | none =>
    match idx.baseURIOf idx.root with
    | some b => b
    | none => ""

/-- The body of the `for (const jsonPointer of schemaPath)` walk of
`dereferenceDynamicReference` (SchemaIndex.ts lines 95-129).  Returns the
winning target when a step matches, `none` when the walk completes without a
match.  A non-object candidate is skipped (`typeof candidate !== 'object'`;
a JSON `null` candidate, for which the JavaScript `in` operator would throw,
is likewise skipped and never arises on indexed paths). -/
def dynamicScopeWalk (idx : DynamicIndex) (refBaseURI : URI) (anchorName : Option String) :
    List String → Option JSONValue → Option JSONValue
  | [], _ => none
  | ptr :: rest, candidate =>
    match dynamicStepCandidate idx refBaseURI ptr candidate with
    | some (.object fields) =>
      if dynamicAnchorMatches (.object fields) anchorName then some (.object fields)
      else
        match lookupAssoc fields "$id" with
        | some (.string idValue) =>
          match idx.find (resolveURIReference ("#" ++ anchorNameString anchorName)
              (resolveURIReference idValue (outermostBaseURIOf idx (.object fields)))) with
          | some candidateAnchor =>
            if dynamicAnchorMatches candidateAnchor anchorName then some candidateAnchor
            else dynamicScopeWalk idx refBaseURI anchorName rest (some (.object fields))
          | none => dynamicScopeWalk idx refBaseURI anchorName rest (some (.object fields))
        | _ => dynamicScopeWalk idx refBaseURI anchorName rest (some (.object fields))
    | c2 => dynamicScopeWalk idx refBaseURI anchorName rest c2

/-- `SchemaIndex.dereferenceDynamicReference` (SchemaIndex.ts lines 85-132):
resolve the statically resolved target URI of the dynamic reference; when the
target URI's fragment is a JSON Pointer behave exactly like a plain
reference; otherwise walk the dynamic scope path from the root; when the walk
finds no match, the statically resolved target is the answer.  `resolvedURI`
is `this.references.get(dynamicReference)?.resolvedURI` and `refBaseURI` is
`this.infoForIndexedObject(dynamicReference).baseURI`; when no node is
indexed at the target URI the source method would fail reading
`$dynamicAnchor` of `undefined`, modelled as `none`. -/
def dereferenceDynamicReference (idx : DynamicIndex) (resolvedURI : URI)
    (refBaseURI : URI) (schemaPath : List String) : Option JSONValue :=
  let dereferencedSchema := idx.find resolvedURI
  if pointerFragment resolvedURI then dereferencedSchema
  else
    match dereferencedSchema with
    | none => none
    | some ds =>
      let anchorName := jsonStringField ds "$dynamicAnchor"
      match dynamicScopeWalk idx refBaseURI anchorName schemaPath (some idx.root) with
      | some winner => some winner
      | none => some ds

/-!
## The draft-04 dereferencing engine (`dereferenceJSONSchema.ts`)

The engine mutates a shared object graph; we model that graph as a heap of
numbered nodes.  A heap value is either a raw (primitive or not-further-
dereferenced) JSON value or a pointer to a heap node, so JavaScript object
identity becomes address equality.  The `placeholderSymbol` marker of
`placeholder.ts` becomes the `mark` field of a node.

The single clone pass is driven by `cloneValues`/`indexSchemasInto`, which
are not part of the provided sources; following the spec (section 4.3,
"single depth-first clone pass"), a run of the engine is modelled as a trace
of the operations that pass performs: dereferencing a schema node,
dereferencing a pure reference, dereferencing a reference with siblings,
allocating a plain container, and populating one property of an
already-allocated result node with a cloned child.
-/

/-- A heap address: the identity of one mutable object of the dereferenced
graph. -/
abbrev Addr := Nat

/-- A value stored in the dereferenced graph: a raw JSON value (primitives,
and sibling values, which the engine copies without further dereferencing) or
a pointer to a heap node. -/
inductive HVal where
  | prim (v : JSONValue)
  | node (a : Addr)
  deriving DecidableEq

/-- The `placeholderSymbol` payload of `placeholder.ts`: the URIs the real
value will eventually be stored under (absent for a fresh
reference-with-siblings result, see line 164) and the indirect link to the
placeholder of the bare reference (reference-with-siblings only). -/
structure PlaceholderInfo where
  uris : Option (List URI)
  indirect : Option Addr
  deriving DecidableEq

/-- One mutable object of the dereferenced graph: its string-keyed
properties, and its placeholder marker when it is still a placeholder. -/
structure HNode where
  props : List (String × HVal)
  mark : Option PlaceholderInfo
  deriving DecidableEq

/-- One entry of `sourceSchemasByURI`: the source value indexed at a URI, the
base URI in effect at its location, and every URI the node is known by
(`context.resolvedURIs`). -/
structure SourceEntry where
  value : JSONValue
  baseURI : URI
  resolvedURIs : List URI
  deriving DecidableEq

/-- The session state of one `dereferenceJSONSchema` call: the allocation
counter and heap, `dereferencedByURI`, `dereferencedBySource` (keyed by
source-node identity, modelled as a number), and the insertion-ordered
`placeholders` set. -/
structure DerefState where
  nextAddr : Nat
  heap : List (Addr × HNode)
  dereferencedByURI : List (URI × HVal)
  dereferencedBySource : List (Nat × HVal)
  placeholders : List Addr
  deriving DecidableEq

/-- The empty session state. -/
def initState : DerefState :=
  { nextAddr := 0, heap := [], dereferencedByURI := [], dereferencedBySource := [],
    placeholders := [] }

/-- Heap lookup. -/
def heapGet (s : DerefState) (a : Addr) : Option HNode :=
  lookupAssoc s.heap a

/-- Replace the node at an address (the address must already be allocated for
the update to have effect, matching in-place object mutation). -/
def heapSet (s : DerefState) (a : Addr) (nd : HNode) : DerefState :=
  { s with heap := s.heap.map (fun p => if p.1 == a then (a, nd) else p) }

/-- Allocate a fresh empty object (`{}`), optionally already marked as a
placeholder. -/
def heapAlloc (s : DerefState) (mark : Option PlaceholderInfo) : DerefState × Addr :=
  ({ s with nextAddr := s.nextAddr + 1,
            heap := s.heap ++ [(s.nextAddr, { props := [], mark := mark })] },
   s.nextAddr)

/-- `dereferencedByURI[uri]`. -/
def lookupByURI (s : DerefState) (uri : URI) : Option HVal :=
  lookupAssoc s.dereferencedByURI uri

/-- `dereferencedByURI[uri] = h`. -/
def bindURI (s : DerefState) (uri : URI) (h : HVal) : DerefState :=
  { s with dereferencedByURI := setAssocKey s.dereferencedByURI uri h }

/-- `resolvedURIs.forEach((uri) => (dereferencedByURI[uri] = result))`. -/
def bindURIs (s : DerefState) (uris : List URI) (h : HVal) : DerefState :=
  uris.foldl (fun acc u => bindURI acc u h) s

/-- `dereferencedBySource.get(schema)` (source nodes are identified by
number). -/
def lookupBySource (s : DerefState) (srcId : Nat) : Option HVal :=
  lookupAssoc s.dereferencedBySource srcId

/-- `dereferencedBySource.set(schema, result)`. -/
def bindSource (s : DerefState) (srcId : Nat) (h : HVal) : DerefState :=
  { s with dereferencedBySource := setAssocKey s.dereferencedBySource srcId h }

/-- `placeholders.add(x)`: a JavaScript `Set` keeps the original insertion
position of an element that is added again. -/
def addPlaceholder (s : DerefState) (a : Addr) : DerefState :=
  if s.placeholders.contains a then s
  else { s with placeholders := s.placeholders ++ [a] }

/-- `placeholders.delete(x)`. -/
def removePlaceholder (s : DerefState) (a : Addr) : DerefState :=
  { s with placeholders := s.placeholders.filter (fun b => b != a) }

/-- `delete result[placeholderSymbol]`. -/
def unmark (s : DerefState) (a : Addr) : DerefState :=
  match heapGet s a with
  | some nd => heapSet s a { nd with mark := none }
  | none => s

/-- JavaScript truthiness of a heap value (objects are always truthy). -/
def jsTruthyH : HVal → Bool
  | .prim v => jsTruthy v
  | .node _ => true

/-- `isPlaceholder(x)`: an object carrying the placeholder marker. -/
def isPlaceholderVal (s : DerefState) (h : HVal) : Bool :=
  match h with
  | .node a =>
    match heapGet s a with
    | some nd => nd.mark.isSome
    | none => false
  | .prim _ => false

/-- `Object.assign(target, source)` on property lists: source keys overwrite
existing keys in place and append otherwise. -/
def mergeAssign {κ α : Type} [BEq κ] (base overlay : List (κ × α)) : List (κ × α) :=
  overlay.foldl (fun acc kv => setAssocKey acc kv.1 kv.2) base

/-- `Object.assign(target, other, { ...target })` — the merge used on both
patch-up paths: fields of `other` are added underneath the target's own
already-set fields, which take precedence. -/
def mergeUnder {κ α : Type} [BEq κ] (own other : List (κ × α)) : List (κ × α) :=
  mergeAssign (mergeAssign own other) own

/-- Fragment evaluation over the dereferenced graph (`evaluateFragment`
applied to an already dereferenced value, lines 116-118 and 230): walk the
pointer tokens through heap nodes.  A missing fragment evaluates to nothing. -/
def evalHeapTokens (s : DerefState) : List String → HVal → Option HVal
  | [], h => some h
  | t :: rest, .node a =>
    match heapGet s a with
    | some nd =>
      match lookupAssoc nd.props t with
      | some child => evalHeapTokens s rest child
      | none => none
    | none => none
  | _ :: _, .prim _ => none

/-- `evaluateFragment(fragment, parent)` over the dereferenced graph. -/
def heapEvalFragment (s : DerefState) (frag : Option String) (h : HVal) : Option HVal :=
  match frag with
  | some f => evalHeapTokens s (ptrTokens f) h
  | none => none

/-- Whether a source value is a pure reference, i.e. the `while` condition of
`dereferenceReference` (lines 81-85): it carries a string-valued `$ref` and
no other key. -/
def isPureRef (v : JSONValue) : Bool :=
  match v with
  | .object [(k, .string _)] => k == "$ref"
  | _ => false

/-- The `$ref` string of a value (defined for pure references). -/
def pureRefString (v : JSONValue) : String :=
  match v with
  | .object [(_, .string s)] => s
  | _ => ""

/-- The reference-following loop of `dereferenceReference` (lines 79-109):
keep resolving `$ref` against the source index, accumulating the resolved
URIs of every target found, until a value that is not a pure reference is
reached or the index misses.  Returns the final `uri` and the accumulated
`resolvedURIs`.  On an index miss the source code attempts a fragment
evaluation against the source document and then breaks; the evaluated target
is never used after the loop, so only the break is modelled.  The source loop
does not terminate on a cycle of pure references; the fuel models that
divergence (`none`). -/
def followChain (idx : URI → Option SourceEntry) :
    Nat → JSONValue → URI → List URI → Option URI → Option (Option URI × List URI)
  | fuel, value, base, acc, uri? =>
    if isPureRef value then
      match fuel with
      | 0 => none
      | n + 1 =>
        let u := resolveURIReference (pureRefString value) base
        match idx u with
        | some e => followChain idx n e.value e.baseURI (acc ++ e.resolvedURIs) (some u)
        | none => some (some u, acc)
    else some (uri?, acc)

/-- Drop a falsy value (`if (!result)` guards). -/
def keepTruthy (h? : Option HVal) : Option HVal :=
  match h? with
  | some h => if jsTruthyH h then some h else none
  | none => none

/-- The result lookup of `dereferenceReference` (lines 111-120): a truthy
already dereferenced result for the final URI, or a truthy child of an
already dereferenced schema located by fragment evaluation. -/
def derefRefLookup (s : DerefState) (uri? : Option URI) : Option HVal :=
  let r0 := keepTruthy (match uri? with
    | some u => lookupByURI s u
    | none => none)
  keepTruthy (match r0 with
    | some h => some h
    | none =>
      match uri? with
      | some u =>
        let af := splitFragment u
        match keepTruthy (lookupByURI s af.1) with
        | some parent => heapEvalFragment s af.2 parent
        | none => none
      | none => none)

/-- The part of `dereferenceReference` after the reference-following loop
(lines 111-133): use an already dereferenced result (`derefRefLookup`);
otherwise synthesize a placeholder tagged with the URI list; finally record
the result under every resolved URI. -/
def derefRefResolved (s : DerefState) (uri? : Option URI) (resolvedURIs : List URI) :
    DerefState × HVal :=
  match derefRefLookup s uri? with
  | some h => (bindURIs s resolvedURIs h, h)
  | none =>
    let uris := (match uri? with | some u => [u] | none => []) ++ resolvedURIs
    let alloc := heapAlloc s (some { uris := some uris, indirect := none })
    let s1 := addPlaceholder alloc.1 alloc.2
    (bindURIs s1 resolvedURIs (.node alloc.2), .node alloc.2)

/-- `dereferenceReference` (lines 75-134): follow the reference chain, then
resolve the final URI (`derefRefResolved`).  Returns `none` only when the
source loop would diverge on a cycle of pure references. -/
def dereferenceReference (idx : URI → Option SourceEntry) (fuel : Nat)
    (s : DerefState) (refValue : JSONValue) (baseURI : URI)
    (ctxResolvedURIs : List URI) : Option (DerefState × HVal) :=
  match followChain idx fuel refValue baseURI ctxResolvedURIs none with
  | none => none
  | some (uri?, resolvedURIs) => some (derefRefResolved s uri? resolvedURIs)

/-- The outcome of the result-scanning loops of `dereferenceSubschema`
(lines 54-66) and `dereferenceReferenceWithSiblings` (lines 142-150): an
early return of a truthy non-placeholder, a break on a truthy placeholder, or
fall-through carrying the last looked-up value. -/
inductive ScanOutcome where
  | early (h : HVal)
  | marked (a : Addr)
  | fallthrough (last : Option HVal)
  deriving DecidableEq

/-- The scanning loop over `context.resolvedURIs`. -/
def scanURIs (s : DerefState) : List URI → ScanOutcome
  | [] => .fallthrough none
  | u :: rest =>
    let h? := lookupByURI s u
    match h? with
    | some h =>
      if jsTruthyH h then
        match h with
        | .node a => if isPlaceholderVal s (.node a) then .marked a else .early (.node a)
        | .prim v => .early (.prim v)
      else
        match rest with
        | [] => .fallthrough h?
        | _ :: _ => scanURIs s rest
    | none =>
      match rest with
      | [] => .fallthrough none
      | _ :: _ => scanURIs s rest

/-- `dereferenceSubschema` (lines 48-73): reuse the result stored for the
source node or for any of its URIs (reviving a placeholder by deleting its
marker), otherwise create a new empty object; record it for the source node
and under all of its URIs.  The population of the node (`context.cloneInto`)
is performed by subsequent `populate` operations of the clone trace.  In the
unreachable corner where the scan falls through to a truthy-less primitive
left by an earlier binding, `result ?? {}` keeps that primitive; it is
returned unchanged. -/
def dereferenceSubschema (s : DerefState) (srcId : Nat) (resolvedURIs : List URI) :
    DerefState × HVal :=
  match lookupBySource s srcId with
  | some h => (s, h)
  | none =>
    match scanURIs s resolvedURIs with
    | .early h => (s, h)
    | .marked a =>
      let s1 := removePlaceholder (unmark s a) a
      let s2 := bindURIs (bindSource s1 srcId (.node a)) resolvedURIs (.node a)
      (s2, .node a)
    | .fallthrough last =>
      match last with
      | some h =>
        let s2 := bindURIs (bindSource s srcId h) resolvedURIs h
        (s2, h)
      | none =>
        let alloc := heapAlloc s none
        let s2 := bindURIs (bindSource alloc.1 srcId (.node alloc.2)) resolvedURIs
          (.node alloc.2)
        (s2, .node alloc.2)

/-- The shared tail of `dereferenceReferenceWithSiblings` once the result
object `r` (a found placeholder or a fresh object) is fixed: lines 153-172. -/
def dereferenceReferenceWithSiblingsCore (idx : URI → Option SourceEntry) (fuel : Nat)
    (s : DerefState) (r : Addr) (refString : String) (siblings : List (String × HVal))
    (baseURI : URI) (ctxResolvedURIs : List URI) : Option (DerefState × HVal) :=
  match dereferenceReference idx fuel s (.object [("$ref", .string refString)]) baseURI [] with
  | none => none
  | some (s1, dereferenced) =>
    match heapGet s1 r with
    | none => none
    | some rNode =>
      if isPlaceholderVal s1 dereferenced then
        let indirectAddr := match dereferenced with | .node a => a | .prim _ => 0
        let newMark : PlaceholderInfo :=
          { uris := match rNode.mark with | some m => m.uris | none => none,
            indirect := some indirectAddr }
        let s2 := heapSet s1 r
          { props := mergeAssign rNode.props siblings, mark := some newMark }
        let s3 := addPlaceholder s2 r
        some (bindURIs s3 ctxResolvedURIs (.node r), .node r)
      else
        let derefProps := match dereferenced with
          | .node a => (match heapGet s1 a with | some nd => nd.props | none => [])
          | .prim _ => []
        let s2 := heapSet s1 r
          { props := mergeAssign (mergeAssign rNode.props derefProps) siblings,
            mark := rNode.mark }
        some (bindURIs s2 ctxResolvedURIs (.node r), .node r)

/-- `dereferenceReferenceWithSiblings` (lines 136-173): reuse a result
already stored under one of the node's URIs (returning it unchanged when it
is not a placeholder), otherwise create a new unique object; dereference the
bare `$ref` with an empty resolved-URI list; when the referenced value is
still a placeholder, record an indirect link to it (keeping any URI list from
an existing marker) and overlay the sibling keys; when it is concrete, merge
its properties and then the sibling keys into the result.  Siblings are
copied as-is (the source assumes they need no further dereferencing).
Returns `none` when the bare reference would diverge, or in the unreachable
corner where a falsy primitive was stored under one of the node's URIs (the
source would then box a primitive). -/
def dereferenceReferenceWithSiblings (idx : URI → Option SourceEntry) (fuel : Nat)
    (s : DerefState) (refString : String) (siblings : List (String × HVal))
    (baseURI : URI) (ctxResolvedURIs : List URI) : Option (DerefState × HVal) :=
  match scanURIs s ctxResolvedURIs with
  | .early h => some (s, h)
  | .marked a => dereferenceReferenceWithSiblingsCore idx fuel s a refString siblings
      baseURI ctxResolvedURIs
  | .fallthrough last =>
    match last with
    | some _ => none
    | none =>
      let alloc := heapAlloc s none
      dereferenceReferenceWithSiblingsCore idx fuel alloc.1 alloc.2 refString siblings
        baseURI ctxResolvedURIs

/-- One operation of the single clone pass over the root document (the pass
itself is `cloneValues`, which is not among the provided sources; per spec
section 4.3 it is a depth-first clone that classifies each node as schema,
reference, reference-with-siblings, or plain value, and copies cloned
children into the parent result). -/
inductive CloneOp where
  | subschema (srcId : Nat) (resolvedURIs : List URI)
  | pureRef (refString : String) (baseURI : URI) (resolvedURIs : List URI)
  | refSiblings (refString : String) (siblings : List (String × HVal)) (baseURI : URI)
      (resolvedURIs : List URI)
  | allocPlain
  | populate (a : Addr) (k : String) (v : HVal)
  deriving DecidableEq

/-- Run one clone operation. -/
def runOp (idx : URI → Option SourceEntry) (fuel : Nat) (s : DerefState) :
    CloneOp → Option (DerefState × HVal)
  | .subschema srcId uris => some (dereferenceSubschema s srcId uris)
  | .pureRef refString baseURI uris =>
    dereferenceReference idx fuel s (.object [("$ref", .string refString)]) baseURI uris
  | .refSiblings refString siblings baseURI uris =>
    dereferenceReferenceWithSiblings idx fuel s refString siblings baseURI uris
  | .allocPlain =>
    let alloc := heapAlloc s none
    some (alloc.1, .node alloc.2)
  | .populate a k v =>
    match heapGet s a with
    | some nd => some (heapSet s a { nd with props := setAssocKey nd.props k v }, .node a)
    | none => none

/-- Run a trace of clone operations. -/
def runTrace (idx : URI → Option SourceEntry) (fuel : Nat) :
    List CloneOp → DerefState → Option DerefState
  | [], s => some s
  | op :: rest, s =>
    match runOp idx fuel s op with
    | some (s1, _) => runTrace idx fuel rest s1
    | none => none

/-!
## The patch-up phase (`dereferenceJSONSchema.ts` lines 200-258)

`while (placeholders.size > 0)` repeatedly examines the first element of the
insertion-ordered placeholder set.  One iteration of the loop is `patchStep`;
the whole loop is `patchLoop`, with a fuel argument modelling the number of
iterations the loop is allowed to take (the source loop has no bound of its
own, so fuel exhaustion models divergence).
-/

/-- `uri.lastIndexOf('/')` followed by `uri.slice(0, index)` and
`uri.slice(index + 1)`: split a URI at its last slash into parent URI and
last reference token.  When the URI contains no slash, `lastIndexOf` yields
`-1`, so JavaScript drops the final character for the parent and keeps the
whole string as the key. -/
def splitLastSlash (u : String) : String × String :=
  let parts := splitChars '/' u.data
  if parts.length ≤ 1 then (String.mk u.data.dropLast, u)
  else (String.mk (joinChars '/' parts.dropLast), String.mk (parts.getLastD []))

/-- The per-URI parent fix-up of the primitive branch (lines 245-256): for
each URI the placeholder was known by, overwrite the property of the parent
node that held the placeholder with the primitive value; a missing parent is
the fatal error of line 254, and a primitive parent would make the
strict-mode property assignment of line 252 throw. -/
def patchPrimitiveFixups (s : DerefState) (v : JSONValue) :
    List URI → Except String DerefState
  | [] => .ok s
  | u :: rest =>
    let pk := splitLastSlash u
    let lastKey := unescapeReferenceToken pk.2
    match keepTruthy (lookupByURI s pk.1) with
    | some (.node a) =>
      match heapGet s a with
      | some nd =>
        patchPrimitiveFixups
          (heapSet s a { nd with props := setAssocKey nd.props lastKey (.prim v) }) v rest
      | none => patchPrimitiveFixups s v rest
    | some (.prim _) => .error "TypeError: cannot assign a property of a primitive"
    | none => .error ("Could not dereference value at " ++ u ++ ", parent does not exist.")

/-- The properties `Object.assign` would copy from a value of JavaScript
type `object`: the properties of a heap node, the fields of a raw JSON
object, or the index properties of a raw JSON array.  `none` for JavaScript
primitives (`typeof realValue !== 'object'`). -/
def objectAssignSource (s : DerefState) (h : HVal) : Option (List (String × HVal)) :=
  match h with
  | .node a =>
    match heapGet s a with
    | some nd => some nd.props
    | none => some []
  | .prim (.object fields) => some (fields.map (fun kv => (kv.1, HVal.prim kv.2)))
  | .prim (.array items) =>
    some (items.enum.map (fun p => (toString p.1, HVal.prim p.2)))
  | .prim _ => none

/-- The primitive payload of a heap value (defined on primitives). -/
def primValue (h : HVal) : JSONValue :=
  match h with
  | .prim v => v
  | .node _ => .null

/-- The result of one iteration of the patch-up loop. -/
inductive PatchStepResult where
  | emptySet
  | next (s : DerefState)
  | failed (msg : String)
  deriving DecidableEq

/-- One iteration of the `while (placeholders.size > 0)` loop (lines
201-257).  The source takes the first element of the set; when that
placeholder carries an indirect link to a value that is still a placeholder,
the iteration executes `continue` without modifying any state — the next
iteration therefore examines the same placeholder again (the source marks
this spot with a TODO about guarding circular references).  Otherwise the
iteration merges the indirect value (the placeholder's own already-set
sibling fields taking precedence), removes the placeholder marker, resolves
the placeholder's first URI against the result table (falling back to
fragment evaluation inside an already dereferenced document), and merges the
real value in (again underneath the placeholder's own fields), or, for a
primitive real value, records the URI list on the node and overwrites the
property of every parent that held the placeholder. -/
def patchStep (s : DerefState) : PatchStepResult :=
  match s.placeholders with
  | [] => .emptySet
  | p :: _ =>
    match heapGet s p with
    | none => .failed "placeholder node missing from heap"
    | some nd =>
      match nd.mark with
      | none => .failed "placeholder marker missing"
      | some info =>
        let indirectUnresolved := match info.indirect with
          | some a => isPlaceholderVal s (.node a)
          | none => false
        if indirectUnresolved then .next s
        else
          let s1 := match info.indirect with
            | some a =>
              let indirectProps := match heapGet s a with
                | some ind => ind.props
                | none => []
              heapSet s p { props := mergeUnder nd.props indirectProps, mark := nd.mark }
            | none => s
          match info.indirect, info.uris with
          | some _, none => .next (removePlaceholder (unmark s1 p) p)
          | _, uris? =>
            let s2 := removePlaceholder (unmark s1 p) p
            match uris? with
            | none => .failed "placeholder carries no uris"
            | some [] => .failed "No placeholder at undefined"
            | some (u :: restURIs) =>
              let rv := keepTruthy (match keepTruthy (lookupByURI s2 u) with
                | some h => some h
                | none =>
                  let af := splitFragment u
                  match keepTruthy (lookupByURI s2 af.1) with
                  | some parent => heapEvalFragment s2 af.2 parent
                  | none => none)
              match rv with
              | none => .failed ("No placeholder at " ++ u)
              | some realValue =>
                match heapGet s2 p with
                | none => .failed "placeholder node missing from heap"
                | some pNode =>
                  match objectAssignSource s2 realValue with
                  | some fields =>
                    .next (heapSet s2 p { props := mergeUnder pNode.props fields,
                                          mark := none })
                  | none =>
                    let v := primValue realValue
                    let s3 := heapSet s2 p
                      { props := setAssocKey pNode.props "uris"
                          (.prim (.array ((u :: restURIs).map JSONValue.string))),
                        mark := none }
                    match patchPrimitiveFixups s3 v (u :: restURIs) with
                    | .ok s4 => .next s4
                    | .error m => .failed m

/-- The outcome of running the patch-up loop with a given iteration budget. -/
inductive PatchOutcome where
  | finished (s : DerefState)
  | failed (msg : String)
  | outOfFuel
  deriving DecidableEq

/-- The patch-up loop: iterate `patchStep` until the placeholder set is
empty, a fatal error is thrown, or the iteration budget is exhausted (the
source loop itself has no budget; `outOfFuel` for every budget is exactly
non-termination of the source loop). -/
def patchLoop : Nat → DerefState → PatchOutcome
  | 0, s =>
    match patchStep s with
    | .emptySet => .finished s
    | .failed m => .failed m
    | .next _ => .outOfFuel
  | n + 1, s =>
    match patchStep s with
    | .emptySet => .finished s
    | .failed m => .failed m
    | .next s1 => patchLoop n s1

/-!
## Document retrieval (`dereferenceJSONSchema.ts` lines 16-31)

The retrieval callback supplied by the caller may throw (`Except.error`) or
return nothing (`Option.none`, covering the JavaScript `undefined`/`null`
that the `??` operator intercepts).  The wrapper built by
`dereferenceJSONSchema` serves the session base URI from the root schema
argument, falls back to `defaultRetrieve` (which throws naming the URI) when
the callback returns nothing, and rejects falsy documents.  The error
messages are modelled without the quotation marks the source puts around the
URI.  The wrapper is then wrapped in `memoize` (whose source is not among
the provided files and is modelled from the spec).
-/

/-- The retrieval wrapper of lines 25-31 together with the list of URIs for
which it invoked the caller-supplied callback (the callback is invoked in
exactly one branch, so the list is that branch's URI). -/
def retrieveDocumentTraced (schema : JSONValue) (baseURI : URI)
    (cb : URI → Except String (Option JSONValue)) (uri : URI) :
    Except String JSONValue × List URI :=
  if uri == baseURI then
    (if jsTruthy schema then .ok schema
     else .error ("Invalid document retrieve at uri " ++ uri), [])
  else
    (match cb uri with
     | .error e => .error e
     | .ok none => .error ("Cannot retrieve URI " ++ uri)
     | .ok (some d) =>
       if jsTruthy d then .ok d
       else .error ("Invalid document retrieve at uri " ++ uri),
     [uri])

/-- The retrieval wrapper of lines 25-31 (see `retrieveDocumentTraced`). -/
def retrieveDocument (schema : JSONValue) (baseURI : URI)
    (cb : URI → Except String (Option JSONValue)) (uri : URI) :
    Except String JSONValue :=
  (retrieveDocumentTraced schema baseURI cb uri).1

/-- Whether an error message identifies a URI: the URI occurs in the message
text. -/
def mentionsURI (msg uri : String) : Prop :=
  uri.toList <:+: msg.toList

instance (msg uri : String) : Decidable (mentionsURI msg uri) :=
  List.decidableInfix uri.toList msg.toList

/-- The cache of the memoized retrieval function, together with the log of
URIs for which the underlying caller-supplied callback was actually
invoked. -/
structure MemoState where
  cache : List (URI × JSONValue)
  callbackLog : List URI
  deriving DecidableEq

/-- The empty memoization state. -/
def initMemo : MemoState :=
  { cache := [], callbackLog := [] }

/-- Modelled from the spec: `memoize` of `retrievers/memoize` (not among the
provided sources) — a read-through cache keyed by absolute URI: a request
for a cached URI is served from the cache without evaluating the wrapped
function; a cache miss evaluates the wrapped function and caches a
successful result. -/
def memoRetrieve (schema : JSONValue) (baseURI : URI)
    (cb : URI → Except String (Option JSONValue)) (st : MemoState) (uri : URI) :
    MemoState × Except String JSONValue :=
  match lookupAssoc st.cache uri with
  | some d => (st, .ok d)
  | none =>
    let r := retrieveDocumentTraced schema baseURI cb uri
    match r.1 with
    | .ok d =>
      ({ cache := setAssocKey st.cache uri d, callbackLog := st.callbackLog ++ r.2 },
       .ok d)
    | .error e =>
      ({ st with callbackLog := st.callbackLog ++ r.2 }, .error e)

/-- A session's sequence of retrieval requests, served through the memoized
wrapper; a retrieval failure aborts the session (spec section 7: all
failures abort the current resolution session), so no request is issued
after a failure. -/
def processRequests (schema : JSONValue) (baseURI : URI)
    (cb : URI → Except String (Option JSONValue)) :
    MemoState → List URI → MemoState
  | st, [] => st
  | st, u :: rest =>
    match memoRetrieve schema baseURI cb st u with
    | (st1, .ok _) => processRequests schema baseURI cb st1 rest
    | (st1, .error _) => st1

/-!
## Keyword validators (criteria-json-schema-validation, draft 2020-12)

The bound validators returned by `maxItemsValidator`, `uniqueItemsValidator`
and `dependentRequiredValidator` once the keyword is present in the schema.
The `Output` record keeps the fields the claims exercise; the `errors` array
of an invalid `dependentRequired` output is summarised by the joined message
(as the source also does), and the single quotation marks the source places
around property names are omitted from messages.
-/

/-- A validation output (`Output` of `validation/Output.ts`). -/
structure Output where
  valid : Bool
  schemaLocation : String
  schemaKeyword : Option String
  instanceLocation : String
  message : Option String
  deriving DecidableEq

/-- Modelled from the spec: `isJSONArray` of `util/isJSONArray`. -/
def isJSONArray (v : JSONValue) : Bool :=
  match v with
  | .array _ => true
  | _ => false

/-- Modelled from the spec: `isJSONObject` of `util/isJSONObject`. -/
def isJSONObject (v : JSONValue) : Bool :=
  match v with
  | .object _ => true
  | _ => false

/-- Modelled from the spec: `assert` of `validation/assert` — a valid output
when the condition holds, otherwise an invalid output carrying the message. -/
def validationAssert (condition : Bool) (message : String) (schemaLocation : String)
    (schemaKeyword : String) (instanceLocation : String) : Output :=
  if condition then
    { valid := true, schemaLocation := schemaLocation,
      schemaKeyword := some schemaKeyword, instanceLocation := instanceLocation,
      message := none }
  else
    { valid := false, schemaLocation := schemaLocation,
      schemaKeyword := some schemaKeyword, instanceLocation := instanceLocation,
      message := some message }

/-- Modelled from the spec: `formatList` of `util/formatList` — join a list
of phrases with commas and a final conjunction. -/
def formatList (items : List String) (conjunction : String) : String :=
  match items with
  | [] => ""
  | [x] => x
  | _ =>
    String.intercalate ", " items.dropLast ++ " " ++ conjunction ++ " " ++
      items.getLastD ""

/-- The items of a JSON array value. -/
def arrayItems (v : JSONValue) : List JSONValue :=
  match v with
  | .array items => items
  | _ => []

/-- The fields of a JSON object value. -/
def objectFields (v : JSONValue) : List (String × JSONValue) :=
  match v with
  | .object fields => fields
  | _ => []

/-- The bound validator returned by `maxItemsValidator` (part_000 lines
18-31): a non-array instance is valid without the bound being checked;
otherwise assert that the array is within the bound. -/
def maxItemsValidate (maxItems : Int) (schemaLocation instanceLocation : String)
    (inst : JSONValue) : Output :=
  if !isJSONArray inst then
    { valid := true, schemaLocation := schemaLocation, schemaKeyword := none,
      instanceLocation := instanceLocation, message := none }
  else
    let n : Int := (arrayItems inst).length
    validationAssert (n ≤ maxItems)
      (if maxItems == 1 then
        "should have up to 1 item but has " ++ toString n ++ " instead"
      else
        "should have up to " ++ toString maxItems ++ " items but has " ++ toString n ++
          " instead")
      schemaLocation "maxItems" instanceLocation

/-- The index pairs `(i, j)` with `i < j` whose items compare equal
(`circularEqual`, modelled as structural equality, which coincides with it on
the finite trees of this model), in the order the source's nested loops
produce them. -/
def equalItemPairs (xs : List JSONValue) : List (Nat × Nat) :=
  ((List.range xs.length).map (fun i =>
    (((List.range xs.length).filter (fun j => i < j)).filter
      (fun j => decide (xs[i]? = xs[j]?))).map (fun j => (i, j)))).flatten

/-- The bound validator returned by `uniqueItemsValidator`
(uniqueItemsValidator.ts lines 25-63, reached only when `uniqueItems` is
`true`): a non-array instance is valid without any comparison; in fail-fast
mode the first equal pair is reported immediately; otherwise all equal pairs
are reported. -/
def uniqueItemsValidate (failFast : Bool) (schemaLocation instanceLocation : String)
    (inst : JSONValue) : Output :=
  if !isJSONArray inst then
    { valid := true, schemaLocation := schemaLocation, schemaKeyword := none,
      instanceLocation := instanceLocation, message := none }
  else
    let matchingPairs := equalItemPairs (arrayItems inst)
    match failFast, matchingPairs with
    | true, (i, j) :: _ =>
      { valid := false, schemaLocation := schemaLocation,
        schemaKeyword := some "uniqueItems", instanceLocation := instanceLocation,
        message := some ("should have unique items but items at " ++ toString i ++
          " and " ++ toString j ++ " are equal instead") }
    | _, _ =>
      validationAssert matchingPairs.isEmpty
        ("should have unique items but " ++
          formatList (matchingPairs.map (fun p =>
            "items at " ++ toString p.1 ++ " and " ++ toString p.2 ++ " are equal"))
            "and" ++ " instead")
        schemaLocation "uniqueItems" instanceLocation

/-- The entry loop of the bound `dependentRequired` validator
(dependentRequiredValidator.ts lines 26-56): for each dependency entry whose
trigger property is present, assert that every dependency is present;
in fail-fast mode the first invalid output is returned immediately
(`Except.error`), otherwise the invalid messages are collected. -/
def dependentRequiredCheck (fields : List (String × JSONValue)) (failFast : Bool)
    (schemaLocation instanceLocation : String) :
    List (String × List String) → List String → Except Output (List String)
  | [], acc => .ok acc
  | (propertyName, dependencies) :: rest, acc =>
    if (lookupAssoc fields propertyName).isNone then
      dependentRequiredCheck fields failFast schemaLocation instanceLocation rest acc
    else
      let missingProperties := dependencies.filter
        (fun d => (lookupAssoc fields d).isNone)
      let output := validationAssert missingProperties.isEmpty
        ("is mising " ++ formatList missingProperties "and")
        schemaLocation "dependentRequired" instanceLocation
      if output.valid then
        dependentRequiredCheck fields failFast schemaLocation instanceLocation rest acc
      else if failFast then .error output
      else
        dependentRequiredCheck fields failFast schemaLocation instanceLocation rest
          (acc ++ [(match output.message with | some m => m | none => "")])

/-- The bound validator returned by `dependentRequiredValidator`
(dependentRequiredValidator.ts lines 21-77): a non-object instance is valid
without any dependency being checked; otherwise the entries are checked and
the invalid messages joined. -/
def dependentRequiredValidate (dependentRequired : List (String × List String))
    (failFast : Bool) (schemaLocation instanceLocation : String)
    (inst : JSONValue) : Output :=
  if !isJSONObject inst then
    { valid := true, schemaLocation := schemaLocation, schemaKeyword := none,
      instanceLocation := instanceLocation, message := none }
  else
    match dependentRequiredCheck (objectFields inst) failFast schemaLocation
        instanceLocation dependentRequired [] with
    | .error output => output
    | .ok invalidMessages =>
      if invalidMessages.isEmpty then
        { valid := true, schemaLocation := schemaLocation,
          schemaKeyword := some "dependentRequired",
          instanceLocation := instanceLocation, message := none }
      else
        { valid := false, schemaLocation := schemaLocation,
          schemaKeyword := some "dependentRequired",
          instanceLocation := instanceLocation,
          message := some (formatList invalidMessages "and") }

/-!
## Concrete schemas, indexes and traces

Concrete instances used to evaluate the model: a two-node cycle of
references-with-siblings, a reference-with-siblings whose target is the root
being populated, a dynamic-scope index with a wrapper schema, and a failing
retrieval callback.
-/

/-- Source index of the schema
`{definitions: {a: {$ref: "#/definitions/b", title: "a"}, b: {$ref: "#/definitions/a", title: "b"}}}`
at base URI `doc`: each definition is a reference with siblings pointing at
the other. -/
def cyclicIdx : URI → Option SourceEntry := fun u =>
  if u == "doc" then
    some { value := .object [("definitions", .object [
             ("a", .object [("$ref", .string "#/definitions/b"), ("title", .string "a")]),
             ("b", .object [("$ref", .string "#/definitions/a"), ("title", .string "b")])])],
           baseURI := "doc", resolvedURIs := ["doc"] }
  else if u == "doc#/definitions/a" then
    some { value := .object [("$ref", .string "#/definitions/b"), ("title", .string "a")],
           baseURI := "doc", resolvedURIs := ["doc#/definitions/a"] }
  else if u == "doc#/definitions/b" then
    some { value := .object [("$ref", .string "#/definitions/a"), ("title", .string "b")],
           baseURI := "doc", resolvedURIs := ["doc#/definitions/b"] }
  else none

/-- The clone pass over the cyclic schema in depth-first document order: the
root schema node, then the two reference-with-siblings definitions. -/
def cyclicTrace : List CloneOp :=
  [.subschema 0 ["doc"],
   .refSiblings "#/definitions/b" [("title", .prim (.string "a"))] "doc"
     ["doc#/definitions/a"],
   .refSiblings "#/definitions/a" [("title", .prim (.string "b"))] "doc"
     ["doc#/definitions/b"]]

/-- The session state after the clone pass over the cyclic schema: two
placeholders, each carrying an indirect link to the other. -/
def cyclicState : DerefState :=
  (runTrace cyclicIdx 9 cyclicTrace initState).getD initState

/-- Source index of the schema
`{definitions: {a: {$ref: "#", description: "d"}}, type: "object"}` at base
URI `doc`: `a` is a reference with siblings whose target is the root
itself. -/
def selfTargetIdx : URI → Option SourceEntry := fun u =>
  if u == "doc" || u == "doc#" then
    some { value := .object [
             ("definitions", .object [("a", .object [("$ref", .string "#"),
               ("description", .string "d")])]),
             ("type", .string "object")],
           baseURI := "doc", resolvedURIs := ["doc", "doc#"] }
  else if u == "doc#/definitions/a" then
    some { value := .object [("$ref", .string "#"), ("description", .string "d")],
           baseURI := "doc", resolvedURIs := ["doc#/definitions/a"] }
  else none

/-- The clone pass over the self-targeting schema in depth-first document
order: the root schema node, the reference-with-siblings (merged while the
root result is still empty), then the population of the root's own
properties. -/
def selfTargetTrace : List CloneOp :=
  [.subschema 0 ["doc", "doc#"],
   .refSiblings "#" [("description", .prim (.string "d"))] "doc" ["doc#/definitions/a"],
   .allocPlain,
   .populate 2 "a" (.node 1),
   .populate 0 "definitions" (.node 2),
   .populate 0 "type" (.prim (.string "object"))]

/-- The session state after the clone pass over the self-targeting schema. -/
def selfTargetState : DerefState :=
  (runTrace selfTargetIdx 9 selfTargetTrace initState).getD initState

/-- Source index with a single absolute target `urn:t` holding a plain
schema. -/
def sharedTargetIdx : URI → Option SourceEntry := fun u =>
  if u == "urn:t" then
    some { value := .object [("title", .string "x")], baseURI := "urn:t",
           resolvedURIs := ["urn:t"] }
  else none

/-- The statically resolved target of the dynamic reference: a schema
declaring `$dynamicAnchor: "thing"`. -/
def dynStaticTarget : JSONValue := .object [("$dynamicAnchor", .string "thing")]

/-- A richer schema declaring the same `$dynamicAnchor`. -/
def dynRichTarget : JSONValue :=
  .object [("$dynamicAnchor", .string "thing"), ("title", .string "winner")]

/-- A schema declaring only a static `$anchor` with the sought name. -/
def dynStaticAnchorNode : JSONValue := .object [("$anchor", .string "thing")]

/-- A wrapper schema step declaring `$id: "urn:ext"`. -/
def dynWrapperNode : JSONValue := .object [("$id", .string "urn:ext")]

/-- Dynamic index whose root holds, under `items`, a node carrying a `$ref`
whose target declares the matching `$dynamicAnchor`. -/
def dynRefStepIdx : DynamicIndex :=
  { find := fun u =>
      if u == "doc#thing" then some dynStaticTarget
      else if u == "urn:sub" then some dynRichTarget
      else none,
    baseURIOf := fun _ => some "doc",
    root := .object [("items", .object [("$ref", .string "urn:sub")])] }

/-- Dynamic index whose root holds a wrapper with `$id: "urn:ext"`, and whose
node at `urn:ext#thing` declares only a static `$anchor: "thing"`. -/
def dynStaticAnchorIdx : DynamicIndex :=
  { find := fun u =>
      if u == "doc#thing" then some dynStaticTarget
      else if u == "urn:ext#thing" then some dynStaticAnchorNode
      else none,
    baseURIOf := fun _ => some "doc",
    root := .object [("wrapper", dynWrapperNode)] }

/-- Dynamic index whose root holds a wrapper with `$id: "urn:ext"`, and whose
node at `urn:ext#thing` declares `$dynamicAnchor: "thing"`. -/
def dynDynamicAnchorIdx : DynamicIndex :=
  { find := fun u =>
      if u == "doc#thing" then some dynStaticTarget
      else if u == "urn:ext#thing" then some dynRichTarget
      else none,
    baseURIOf := fun _ => some "doc",
    root := .object [("wrapper", dynWrapperNode)] }

/-- A retrieval callback that throws an error that does not name the URI for
`urn:x` and returns nothing for every other URI. -/
def throwingCallback : URI → Except String (Option JSONValue) := fun u =>
  if u == "urn:x" then .error "boom" else .ok none

/-- The invariant of the memoized retrieval state: no URI was handed to the
caller-supplied callback twice, every URI handed to the callback has been
cached, and the session base URI was never handed to the callback. -/
def MemoInv (baseURI : URI) (st : MemoState) : Prop :=
  (∀ u, st.callbackLog.count u ≤ 1) ∧
  (∀ u, u ∈ st.callbackLog → (lookupAssoc st.cache u).isSome) ∧
  baseURI ∉ st.callbackLog

/-- The state and result of dereferencing a first pure reference to `urn:t`
from the empty session state. -/
def sharedFirstRun : DerefState × HVal :=
  (runOp sharedTargetIdx 5 initState (.pureRef "urn:t" "" ["site1"])).getD
    (initState, .prim .null)

/-- The state and result of dereferencing a second pure reference to `urn:t`
after the first. -/
def sharedSecondRun : DerefState × HVal :=
  (runOp sharedTargetIdx 5 sharedFirstRun.1 (.pureRef "urn:t" "" ["site2"])).getD
    (initState, .prim .null)

/-- A session state in which the target `urn:t` has already been dereferenced
to a complete concrete node. -/
def mergeReadyState : DerefState :=
  { nextAddr := 1,
    heap := [(0, { props := [("title", .prim (.string "x"))], mark := none })],
    dereferencedByURI := [("urn:t", .node 0)],
    dereferencedBySource := [],
    placeholders := [] }

/-- A session state whose single placeholder carries sibling properties, a
URI list pointing back at itself, and an indirect link to an already
resolved node. -/
def patchReadyState : DerefState :=
  { nextAddr := 2,
    heap := [(0, { props := [("t", .prim (.string "v"))], mark := none }),
             (1, { props := [("s", .prim (.string "w"))],
                   mark := some { uris := some ["doc#/x"], indirect := some 0 } })],
    dereferencedByURI := [("doc#/x", .node 1)],
    dereferencedBySource := [],
    placeholders := [1] }

/-!
## Association-list and session-state lemmas
-/

theorem lookupAssoc_nil {κ α : Type} [BEq κ] (k : κ) :
    lookupAssoc ([] : List (κ × α)) k = none := rfl

theorem lookupAssoc_cons {κ α : Type} [BEq κ] (a : κ) (b : α) (l : List (κ × α)) (k : κ) :
    lookupAssoc ((a, b) :: l) k = if a == k then some b else lookupAssoc l k := by
  unfold lookupAssoc
  cases h : a == k <;> simp [List.find?_cons, h]

theorem lookupAssoc_append {κ α : Type} [BEq κ] (l₁ l₂ : List (κ × α)) (k : κ) :
    lookupAssoc (l₁ ++ l₂) k =
      (match lookupAssoc l₁ k with | some w => some w | none => lookupAssoc l₂ k) := by
  induction l₁ with
  | nil => simp [lookupAssoc_nil]
  | cons p rest ih =>
    obtain ⟨a, b⟩ := p
    rw [List.cons_append, lookupAssoc_cons, lookupAssoc_cons]
    cases h : a == k
    · simp [ih]
    · simp

theorem lookupAssoc_eq_none_of_not_mem {κ α : Type} [BEq κ] [LawfulBEq κ]
    (l : List (κ × α)) (k : κ) (h : k ∉ l.map Prod.fst) : lookupAssoc l k = none := by
  induction l with
  | nil => rfl
  | cons p rest ih =>
    rw [lookupAssoc_cons p.1 p.2 rest k]
    have h1 : p.1 ≠ k := by
      intro he
      exact h (by simp [he])
    have h2 : (p.1 == k) = false := by simp [h1]
    simp only [h2, if_false]
    exact ih (fun hm => h (by simp [hm]))

theorem lookupAssoc_setMap_ne {κ α : Type} [BEq κ] [LawfulBEq κ]
    (l : List (κ × α)) (k k2 : κ) (v : α) (hne : k2 ≠ k) :
    lookupAssoc (l.map (fun p => if p.1 == k then (k, v) else p)) k2 = lookupAssoc l k2 := by
  induction l with
  | nil => rfl
  | cons p rest ih =>
    obtain ⟨a, b⟩ := p
    by_cases h : a = k
    · subst h
      simp only [List.map_cons, beq_self_eq_true, if_true]
      rw [lookupAssoc_cons, lookupAssoc_cons]
      have hf : (a == k2) = false := by simp [Ne.symm hne]
      simp only [hf, Bool.false_eq_true, if_false]
      exact ih
    · have hb : (a == k) = false := by simp [h]
      simp only [List.map_cons, hb, Bool.false_eq_true, if_false]
      rw [lookupAssoc_cons, lookupAssoc_cons, ih]

theorem lookupAssoc_setMap_self {κ α : Type} [BEq κ] [LawfulBEq κ]
    (l : List (κ × α)) (k : κ) (v : α)
    (hs : (l.find? (fun p => p.1 == k)).isSome = true) :
    lookupAssoc (l.map (fun p => if p.1 == k then (k, v) else p)) k = some v := by
  induction l with
  | nil => simp [List.find?] at hs
  | cons p rest ih =>
    obtain ⟨a, b⟩ := p
    by_cases h : a = k
    · subst h
      simp only [List.map_cons, beq_self_eq_true, if_true]
      rw [lookupAssoc_cons]
      simp
    · have hb : (a == k) = false := by simp [h]
      rw [List.find?_cons] at hs
      simp only [hb] at hs
      simp only [List.map_cons, hb, Bool.false_eq_true, if_false]
      rw [lookupAssoc_cons]
      simp only [hb, Bool.false_eq_true, if_false]
      exact ih hs

theorem lookupAssoc_setAssocKey {κ α : Type} [BEq κ] [LawfulBEq κ] [DecidableEq κ]
    (l : List (κ × α)) (k k2 : κ) (v : α) :
    lookupAssoc (setAssocKey l k v) k2 = if k2 = k then some v else lookupAssoc l k2 := by
  unfold setAssocKey
  by_cases hs : (l.find? (fun p => p.1 == k)).isSome = true
  · simp only [hs, if_true]
    by_cases hk : k2 = k
    · subst hk
      rw [lookupAssoc_setMap_self l k2 v hs]
      simp
    · rw [lookupAssoc_setMap_ne l k k2 v hk]
      simp [hk]
  · have hs' : (l.find? (fun p => p.1 == k)).isSome = false := by
      cases hf : (l.find? (fun p => p.1 == k)).isSome
      · rfl
      · exact absurd hf hs
    simp only [hs', Bool.false_eq_true, if_false]
    rw [lookupAssoc_append]
    by_cases hk : k2 = k
    · subst hk
      have hnone : lookupAssoc l k2 = none := by
        unfold lookupAssoc
        cases hf : l.find? (fun p => p.1 == k2)
        · rfl
        · rw [hf] at hs'
          simp at hs'
      rw [hnone]
      simp [lookupAssoc_cons]
    · have hb : (k == k2) = false := by simp [Ne.symm hk]
      cases hl : lookupAssoc l k2 <;>
        simp [hl, lookupAssoc_cons, lookupAssoc_nil, hb, hk]
theorem nodup_keys_setAssocKey {κ α : Type} [BEq κ] [LawfulBEq κ]
    (l : List (κ × α)) (k : κ) (v : α) (h : (l.map Prod.fst).Nodup) :
    ((setAssocKey l k v).map Prod.fst).Nodup := by
  unfold setAssocKey
  by_cases hs : (l.find? (fun p => p.1 == k)).isSome = true
  · simp only [hs, if_true]
    have hmap : (l.map (fun p => if p.1 == k then (k, v) else p)).map Prod.fst =
        l.map Prod.fst := by
      rw [List.map_map]
      apply List.map_congr_left
      intro p _
      by_cases hp : p.1 = k
      · simp [hp]
      · simp [hp]
    rw [hmap]
    exact h
  · have hs' : (l.find? (fun p => p.1 == k)).isSome = false := by
      cases hf : (l.find? (fun p => p.1 == k)).isSome
      · rfl
      · exact absurd hf hs
    simp only [hs', Bool.false_eq_true, if_false]
    have hkn : k ∉ l.map Prod.fst := by
      intro hm
      obtain ⟨p, hp, hpk⟩ := List.mem_map.mp hm
      cases hf : l.find? (fun p => p.1 == k) with
      | none =>
        have := List.find?_eq_none.mp hf p hp
        simp [hpk] at this
      | some q =>
        rw [hf] at hs'
        simp at hs'
    rw [List.map_append]
    simp only [List.map_cons, List.map_nil]
    rw [List.nodup_append]
    refine ⟨h, List.nodup_singleton k, ?_⟩
    intro x hx hxk
    simp only [List.mem_singleton] at hxk
    subst hxk
    exact hkn hx

theorem nodup_keys_mergeAssign {κ α : Type} [BEq κ] [LawfulBEq κ]
    (base overlay : List (κ × α)) (h : (base.map Prod.fst).Nodup) :
    ((mergeAssign base overlay).map Prod.fst).Nodup := by
  induction overlay generalizing base with
  | nil => exact h
  | cons kv rest ih =>
    exact ih (setAssocKey base kv.1 kv.2) (nodup_keys_setAssocKey base kv.1 kv.2 h)

theorem lookupAssoc_mergeAssign {κ α : Type} [BEq κ] [LawfulBEq κ] [DecidableEq κ]
    (base overlay : List (κ × α)) (hnd : (overlay.map Prod.fst).Nodup) (k : κ) :
    lookupAssoc (mergeAssign base overlay) k =
      (match lookupAssoc overlay k with
       | some v => some v
       | none => lookupAssoc base k) := by
  induction overlay generalizing base with
  | nil => simp [mergeAssign, lookupAssoc_nil]
  | cons kv rest ih =>
    obtain ⟨k1, v1⟩ := kv
    have hnd' : (rest.map Prod.fst).Nodup := (List.nodup_cons.mp hnd).2
    have hk1 : k1 ∉ rest.map Prod.fst := (List.nodup_cons.mp hnd).1
    have hstep : mergeAssign base ((k1, v1) :: rest) =
        mergeAssign (setAssocKey base k1 v1) rest := rfl
    rw [hstep, ih (setAssocKey base k1 v1) hnd', lookupAssoc_cons]
    by_cases hk : k = k1
    · subst hk
      have : lookupAssoc rest k = none := lookupAssoc_eq_none_of_not_mem rest k hk1
      rw [this]
      simp [lookupAssoc_setAssocKey]
    · have hb : (k1 == k) = false := by simp [Ne.symm hk]
      rw [lookupAssoc_setAssocKey]
      simp only [hb, Bool.false_eq_true, if_false, hk, if_false]

theorem lookupAssoc_mergeUnder {κ α : Type} [BEq κ] [LawfulBEq κ] [DecidableEq κ]
    (own other : List (κ × α)) (ho : (own.map Prod.fst).Nodup)
    (hoth : (other.map Prod.fst).Nodup) (k : κ) :
    lookupAssoc (mergeUnder own other) k =
      (match lookupAssoc own k with
       | some v => some v
       | none => lookupAssoc other k) := by
  unfold mergeUnder
  rw [lookupAssoc_mergeAssign _ own ho k,
      lookupAssoc_mergeAssign _ other hoth k]
  cases h1 : lookupAssoc own k <;> cases h2 : lookupAssoc other k <;> simp

theorem nodup_keys_mergeUnder {κ α : Type} [BEq κ] [LawfulBEq κ]
    (own other : List (κ × α)) (ho : (own.map Prod.fst).Nodup) :
    ((mergeUnder own other).map Prod.fst).Nodup :=
  nodup_keys_mergeAssign _ own (nodup_keys_mergeAssign _ other ho)

theorem lookupByURI_bindURI (s : DerefState) (u : URI) (h : HVal) (u2 : URI) :
    lookupByURI (bindURI s u h) u2 = if u2 = u then some h else lookupByURI s u2 := by
  unfold lookupByURI bindURI
  exact lookupAssoc_setAssocKey s.dereferencedByURI u u2 h

theorem bindURIs_cons (s : DerefState) (x : URI) (rest : List URI) (h : HVal) :
    bindURIs s (x :: rest) h = bindURIs (bindURI s x h) rest h := rfl

theorem lookupByURI_bindURIs (s : DerefState) (uris : List URI) (h : HVal) (u2 : URI) :
    lookupByURI (bindURIs s uris h) u2 =
      if u2 ∈ uris then some h else lookupByURI s u2 := by
  induction uris generalizing s with
  | nil => simp [bindURIs]
  | cons x rest ih =>
    rw [bindURIs_cons, ih]
    by_cases hm : u2 ∈ rest
    · simp [hm]
    · rw [lookupByURI_bindURI]
      by_cases hx : u2 = x
      · simp [hm, hx]
      · simp [hm, hx]

theorem bindURI_heap (s : DerefState) (u : URI) (h : HVal) :
    (bindURI s u h).heap = s.heap := rfl

theorem bindURIs_heap (s : DerefState) (uris : List URI) (h : HVal) :
    (bindURIs s uris h).heap = s.heap := by
  induction uris generalizing s with
  | nil => rfl
  | cons x rest ih => rw [bindURIs_cons, ih, bindURI_heap]

theorem heapGet_bindURIs (s : DerefState) (uris : List URI) (h : HVal) (a : Addr) :
    heapGet (bindURIs s uris h) a = heapGet s a := by
  unfold heapGet
  rw [bindURIs_heap]

theorem keepTruthy_truthy (x : Option HVal) (h : HVal) (he : keepTruthy x = some h) :
    jsTruthyH h = true := by
  unfold keepTruthy at he
  cases x with
  | none => cases he
  | some h0 =>
    by_cases ht : jsTruthyH h0 = true
    · simp only [ht, if_true] at he
      cases he
      exact ht
    · simp only [ht, if_false] at he
      cases he

theorem keepTruthy_of_truthy (h : HVal) (ht : jsTruthyH h = true) :
    keepTruthy (some h) = some h := by
  simp [keepTruthy, ht]

theorem heapGet_heapAlloc (s : DerefState) (m : Option PlaceholderInfo) (a : Addr)
    (nd : HNode) (h : heapGet s a = some nd) :
    heapGet (heapAlloc s m).1 a = some nd := by
  unfold heapGet at h ⊢
  simp only [heapAlloc]
  rw [lookupAssoc_append, h]

theorem heapGet_heapAlloc_self (s : DerefState) (m : Option PlaceholderInfo)
    (hfresh : heapGet s s.nextAddr = none) :
    heapGet (heapAlloc s m).1 s.nextAddr = some { props := [], mark := m } := by
  unfold heapGet at hfresh ⊢
  simp only [heapAlloc]
  rw [lookupAssoc_append, hfresh]
  simp [lookupAssoc_cons]

theorem heapGet_addPlaceholder (s : DerefState) (b : Addr) (a : Addr) :
    heapGet (addPlaceholder s b) a = heapGet s a := by
  unfold heapGet addPlaceholder
  split
  · rfl
  · rfl

theorem heapGet_heapSet_self (s : DerefState) (a : Addr) (nd nd0 : HNode)
    (h : heapGet s a = some nd0) :
    heapGet (heapSet s a nd) a = some nd := by
  unfold heapGet at h ⊢
  unfold heapSet
  simp only
  apply lookupAssoc_setMap_self
  unfold lookupAssoc at h
  cases hf : s.heap.find? (fun p => p.1 == a) with
  | none =>
    rw [hf] at h
    cases h
  | some q => simp [hf]

theorem heapGet_heapSet_ne (s : DerefState) (a : Addr) (nd : HNode) (a2 : Addr)
    (hne : a2 ≠ a) : heapGet (heapSet s a nd) a2 = heapGet s a2 := by
  unfold heapGet heapSet
  simp only
  exact lookupAssoc_setMap_ne s.heap a a2 nd hne

/-!
## Lemmas about `dereferenceReference`
-/

theorem derefRefLookup_truthy (s : DerefState) (u? : Option URI) (h : HVal)
    (he : derefRefLookup s u? = some h) : jsTruthyH h = true := by
  unfold derefRefLookup at he
  exact keepTruthy_truthy _ h he

theorem derefRefLookup_of_bound (s : DerefState) (u : URI) (h : HVal)
    (hlk : lookupByURI s u = some h) (ht : jsTruthyH h = true) :
    derefRefLookup s (some u) = some h := by
  unfold derefRefLookup
  simp [hlk, keepTruthy, ht]

theorem derefRefResolved_lookup (s : DerefState) (u : URI) (R : List URI)
    (hmem : u ∈ R) :
    lookupByURI (derefRefResolved s (some u) R).1 u =
      some (derefRefResolved s (some u) R).2 := by
  unfold derefRefResolved
  cases hE : derefRefLookup s (some u) with
  | some h => simp [lookupByURI_bindURIs, hmem]
  | none => simp [lookupByURI_bindURIs, hmem]

theorem derefRefResolved_truthy (s : DerefState) (u? : Option URI) (R : List URI) :
    jsTruthyH (derefRefResolved s u? R).2 = true := by
  unfold derefRefResolved
  cases hE : derefRefLookup s u? with
  | some h => exact derefRefLookup_truthy s u? h hE
  | none => simp [jsTruthyH]

theorem derefRefResolved_of_bound (s : DerefState) (u : URI) (R : List URI) (h : HVal)
    (hlk : lookupByURI s u = some h) (ht : jsTruthyH h = true) :
    derefRefResolved s (some u) R = (bindURIs s R h, h) := by
  unfold derefRefResolved
  rw [derefRefLookup_of_bound s u h hlk ht]

theorem heapGet_derefRefResolved (s : DerefState) (u? : Option URI) (R : List URI)
    (a : Addr) (nd : HNode) (h : heapGet s a = some nd) :
    heapGet (derefRefResolved s u? R).1 a = some nd := by
  unfold derefRefResolved
  cases hE : derefRefLookup s u? with
  | some h2 =>
    simp only [heapGet_bindURIs]
    exact h
  | none =>
    simp only [heapGet_bindURIs, heapGet_addPlaceholder]
    exact heapGet_heapAlloc s _ a nd h

/-!
## Claim theorems
-/

/-- C1 (confirmed): in any session, two pure reference nodes (only a `$ref`
key) whose reference chains resolve to the same final target URI `u` are
replaced by the exact same result value — in particular, two `node`
results are the same heap address, i.e. the same object.  The first call
records its result under `u` (using the indexing invariant that the indexed
target's own resolved URIs include `u`); provided the clone operations run
in between leave the binding of `u` unchanged (`hpres`), the second call
returns exactly that recorded result.  The target may be any schema,
including the root result or an ancestor still being populated. -/
theorem dereference_same_target_identity
    (idx : URI → Option SourceEntry) (fuel : Nat)
    (s₀ s₁ s₂ s₃ : DerefState) (h₁ h₂ : HVal) (u : URI)
    (r₁ b₁ r₂ b₂ : String) (uris₁ uris₂ R₁ R₂ : List URI) (tr : List CloneOp)
    (hchain₁ : followChain idx fuel (.object [("$ref", .string r₁)]) b₁ uris₁ none =
      some (some u, R₁))
    (hmem : u ∈ R₁)
    (hrun₁ : runOp idx fuel s₀ (.pureRef r₁ b₁ uris₁) = some (s₁, h₁))
    (hmid : runTrace idx fuel tr s₁ = some s₂)
    (hpres : lookupByURI s₂ u = lookupByURI s₁ u)
    (hchain₂ : followChain idx fuel (.object [("$ref", .string r₂)]) b₂ uris₂ none =
      some (some u, R₂))
    (hrun₂ : runOp idx fuel s₂ (.pureRef r₂ b₂ uris₂) = some (s₃, h₂)) :
    h₂ = h₁ ∧ lookupByURI s₃ u = some h₁ := by
  have e₁ : dereferenceReference idx fuel s₀ (.object [("$ref", .string r₁)]) b₁ uris₁ =
      some (s₁, h₁) := hrun₁
  unfold dereferenceReference at e₁
  rw [hchain₁] at e₁
  have e₁' : derefRefResolved s₀ (some u) R₁ = (s₁, h₁) := by
    injection e₁
  have hl₁ : lookupByURI s₁ u = some h₁ := by
    have hx := derefRefResolved_lookup s₀ u R₁ hmem
    rw [e₁'] at hx
    exact hx
  have ht₁ : jsTruthyH h₁ = true := by
    have hx := derefRefResolved_truthy s₀ (some u) R₁
    rw [e₁'] at hx
    exact hx
  have e₂ : dereferenceReference idx fuel s₂ (.object [("$ref", .string r₂)]) b₂ uris₂ =
      some (s₃, h₂) := hrun₂
  unfold dereferenceReference at e₂
  rw [hchain₂] at e₂
  have hl₂ : lookupByURI s₂ u = some h₁ := by
    rw [hpres, hl₁]
  replace e₂ : some (derefRefResolved s₂ (some u) R₂) = some (s₃, h₂) := e₂
  rw [derefRefResolved_of_bound s₂ u R₂ h₁ hl₂ ht₁] at e₂
  have e₂' : (bindURIs s₂ R₂ h₁, h₁) = (s₃, h₂) := by
    injection e₂
  have hs₃ : bindURIs s₂ R₂ h₁ = s₃ := congrArg Prod.fst e₂'
  have hh₂ : h₁ = h₂ := congrArg Prod.snd e₂'
  constructor
  · exact hh₂.symm
  · rw [← hs₃, lookupByURI_bindURIs]
    by_cases hm : u ∈ R₂
    · simp [hm]
    · simp [hm, hl₂]

/-- C1 witness: a session that dereferences the root schema and then two
pure references to the same absolute target `urn:t` yields the same heap
node (address 0) at both reference sites. -/
theorem dereference_same_target_identity_witness :
    sharedSecondRun.2 = sharedFirstRun.2 ∧
      lookupByURI sharedSecondRun.1 "urn:t" = some sharedFirstRun.2 :=
  dereference_same_target_identity sharedTargetIdx 5 initState sharedFirstRun.1
    sharedFirstRun.1 sharedSecondRun.1 sharedFirstRun.2 sharedSecondRun.2 "urn:t"
    "urn:t" "" "urn:t" "" ["site1"] ["site2"] ["site1", "urn:t"] ["site2", "urn:t"] []
    (by decide) (by decide) (by decide) rfl rfl (by decide) (by decide)

/-- C2 (code bug): the patch-up phase does not defer a placeholder whose
indirect link is still unresolved, and has no visitation budget or distinct
indirect-cycle error.  On the schema
`{definitions: {a: {$ref: "#/definitions/b", title: "a"}, b: {$ref: "#/definitions/a", title: "b"}}}`
the clone pass leaves two placeholders whose indirect links point at each
other; the loop body then reaches the `continue` of line 206 (marked in the
source with a TODO about guarding circular references) without changing any
state, so the first placeholder is examined again forever: one iteration is
the identity, and the loop exhausts every iteration budget instead of
reporting an indirect-cycle error. -/
theorem patch_up_indirect_cycle_diverges :
    runTrace cyclicIdx 9 cyclicTrace initState = some cyclicState ∧
    cyclicState.placeholders = [2, 1] ∧
    patchStep cyclicState = .next cyclicState ∧
    ∀ fuel : Nat, patchLoop fuel cyclicState = .outOfFuel := by
  refine ⟨by decide, by decide, by decide, ?_⟩
  have hstep : patchStep cyclicState = .next cyclicState := by decide
  intro fuel
  induction fuel with
  | zero =>
    unfold patchLoop
    rw [hstep]
  | succ n ih =>
    unfold patchLoop
    rw [hstep]
    exact ih

theorem lookupByURI_heapSet (s : DerefState) (a : Addr) (nd : HNode) (u : URI) :
    lookupByURI (heapSet s a nd) u = lookupByURI s u := rfl

theorem lookupByURI_unmark (s : DerefState) (a : Addr) (u : URI) :
    lookupByURI (unmark s a) u = lookupByURI s u := by
  unfold unmark
  cases heapGet s a
  · rfl
  · rfl

theorem lookupByURI_removePlaceholder (s : DerefState) (a : Addr) (u : URI) :
    lookupByURI (removePlaceholder s a) u = lookupByURI s u := rfl

theorem heapGet_removePlaceholder (s : DerefState) (b : Addr) (a : Addr) :
    heapGet (removePlaceholder s b) a = heapGet s a := rfl

theorem heapGet_unmark_self (s : DerefState) (a : Addr) (nd : HNode)
    (h : heapGet s a = some nd) :
    heapGet (unmark s a) a = some { nd with mark := none } := by
  unfold unmark
  rw [h]
  exact heapGet_heapSet_self s a _ nd h

/-- C3 (corrected, counterexample): on the schema
`{definitions: {a: {$ref: "#", description: "d"}}, type: "object"}` the
reference-with-siblings `a` targets the root itself; the immediate merge of
line 168 copies the target's properties as they stand at merge time — while
the root result is still empty — so the merged node at the reference site
(heap node 1) lacks the target's `type` key even though the completed target
(heap node 0) has it and the siblings do not, and the patch-up phase has
nothing left to fix.  The claim's predicted merge (target content overlaid
by siblings) would have given the node a `type` key. -/
theorem refWithSiblings_incomplete_target_counterexample :
    runTrace selfTargetIdx 9 selfTargetTrace initState = some selfTargetState ∧
    lookupByURI selfTargetState "doc#/definitions/a" = some (.node 1) ∧
    lookupByURI selfTargetState "doc#" = some (.node 0) ∧
    (heapGet selfTargetState 0).map (fun nd => lookupAssoc nd.props "type") =
      some (some (.prim (.string "object"))) ∧
    (heapGet selfTargetState 1).map (fun nd => lookupAssoc nd.props "description") =
      some (some (.prim (.string "d"))) ∧
    (heapGet selfTargetState 1).map (fun nd => lookupAssoc nd.props "type") =
      some none ∧
    patchLoop 9 selfTargetState = .finished selfTargetState := by
  refine ⟨by decide, by decide, by decide, by decide, by decide, by decide, by decide⟩

/-- C3 (corrected, amended): a reference node with `$ref` plus siblings
becomes a new merged node — distinct from the shared target node — whose
keys are the target's dereferenced content *as it stands at merge time*
overlaid by the sibling keys, with siblings taking precedence on every
conflict; when the target content is complete at merge time this is exactly
the claimed merge.  First conjunct: the immediate-merge path
(`dereferenceReferenceWithSiblings` with a concrete referenced value).
Second conjunct: the deferred patch-up path (`patchStep` on a placeholder
whose indirect link has been resolved), where the placeholder's own
previously-set sibling fields take precedence over the indirect value's
fields. -/
theorem refWithSiblings_merge_precedence :
    (∀ (idx : URI → Option SourceEntry) (fuel : Nat) (s s₁ : DerefState)
       (refString : String) (siblings : List (String × HVal)) (baseURI : URI)
       (uris : List URI) (a : Addr) (tNode nd0 : HNode),
      scanURIs s uris = .fallthrough none →
      heapGet s s.nextAddr = none →
      heapGet s a = some nd0 →
      dereferenceReference idx fuel (heapAlloc s none).1
        (.object [("$ref", .string refString)]) baseURI [] = some (s₁, .node a) →
      heapGet s₁ a = some tNode →
      tNode.mark = none →
      (siblings.map Prod.fst).Nodup →
      (tNode.props.map Prod.fst).Nodup →
      ∃ sOut,
        dereferenceReferenceWithSiblings idx fuel s refString siblings baseURI uris =
          some (sOut, .node s.nextAddr) ∧
        s.nextAddr ≠ a ∧
        ∃ ndOut, heapGet sOut s.nextAddr = some ndOut ∧
          ∀ k, lookupAssoc ndOut.props k =
            (match lookupAssoc siblings k with
             | some v => some v
             | none => lookupAssoc tNode.props k)) ∧
    (∀ (sp : DerefState) (p : Addr) (prest : List Addr) (u0 : URI) (us : List URI)
       (ia : Addr) (pNode iNode : HNode),
      sp.placeholders = p :: prest →
      heapGet sp p = some pNode →
      pNode.mark = some { uris := some (u0 :: us), indirect := some ia } →
      heapGet sp ia = some iNode →
      iNode.mark = none →
      lookupByURI sp u0 = some (.node p) →
      (pNode.props.map Prod.fst).Nodup →
      (iNode.props.map Prod.fst).Nodup →
      ∃ sOut, patchStep sp = .next sOut ∧
        ∃ ndOut, heapGet sOut p = some ndOut ∧ ndOut.mark = none ∧
          ∀ k, lookupAssoc ndOut.props k =
            (match lookupAssoc pNode.props k with
             | some v => some v
             | none => lookupAssoc iNode.props k)) := by
  constructor
  · intro idx fuel s s₁ refString siblings baseURI uris a tNode nd0
      hscan hfresh hpre hrun htN hmark hsib htnd
    have hne : s.nextAddr ≠ a := by
      intro he
      rw [← he] at hpre
      rw [hfresh] at hpre
      cases hpre
    have hr0 : heapGet (heapAlloc s none).1 s.nextAddr =
        some { props := [], mark := none } :=
      heapGet_heapAlloc_self s none hfresh
    have hrs₁ : heapGet s₁ s.nextAddr = some { props := [], mark := none } := by
      unfold dereferenceReference at hrun
      cases hc : followChain idx fuel (.object [("$ref", .string refString)]) baseURI
          [] none with
      | none =>
        rw [hc] at hrun
        cases hrun
      | some pr =>
        rw [hc] at hrun
        replace hrun : derefRefResolved (heapAlloc s none).1 pr.1 pr.2 = (s₁, .node a) := by
          injection hrun
        have := heapGet_derefRefResolved (heapAlloc s none).1 pr.1 pr.2 s.nextAddr
          { props := [], mark := none } hr0
        rw [hrun] at this
        exact this
    have hpl : isPlaceholderVal s₁ (.node a) = false := by
      unfold isPlaceholderVal
      simp only [htN, hmark, Option.isSome_none]
    unfold dereferenceReferenceWithSiblings
    simp only [hscan]
    unfold dereferenceReferenceWithSiblingsCore
    rw [hrun]
    have halloc2 : (heapAlloc s none).2 = s.nextAddr := rfl
    simp only [halloc2, hrs₁, hpl, Bool.false_eq_true, if_false, htN]
    refine ⟨_, rfl, hne, ?_⟩
    have hget : heapGet (bindURIs (heapSet s₁ s.nextAddr
        { props := mergeAssign (mergeAssign ({ props := [], mark := none } : HNode).props
            tNode.props) siblings,
          mark := ({ props := [], mark := none } : HNode).mark }) uris
        (.node s.nextAddr)) s.nextAddr =
        some { props := mergeAssign (mergeAssign [] tNode.props) siblings,
               mark := none } := by
      rw [heapGet_bindURIs]
      exact heapGet_heapSet_self s₁ s.nextAddr _ _ hrs₁
    refine ⟨_, hget, ?_⟩
    intro k
    rw [lookupAssoc_mergeAssign _ siblings hsib k,
        lookupAssoc_mergeAssign _ tNode.props htnd k]
    cases lookupAssoc siblings k <;> cases hpk : lookupAssoc tNode.props k <;>
      simp [lookupAssoc_nil]
  · intro sp p prest u0 us ia pNode iNode hph hpn hpm hin him hself hpnd hind
    have hXnd : ((mergeUnder pNode.props iNode.props).map Prod.fst).Nodup :=
      nodup_keys_mergeUnder pNode.props iNode.props hpnd
    have hplf : isPlaceholderVal sp (.node ia) = false := by
      unfold isPlaceholderVal
      simp only [hin, him, Option.isSome_none]
    unfold patchStep
    simp only [hph, hpn, hpm, hin, hplf, Bool.false_eq_true, if_false]
    have hs1p : heapGet (heapSet sp p
        { props := mergeUnder pNode.props iNode.props,
          mark := some { uris := some (u0 :: us), indirect := some ia } }) p =
        some { props := mergeUnder pNode.props iNode.props,
               mark := some { uris := some (u0 :: us), indirect := some ia } } :=
      heapGet_heapSet_self sp p _ pNode hpn
    have hs2p : heapGet (removePlaceholder (unmark (heapSet sp p
        { props := mergeUnder pNode.props iNode.props,
          mark := some { uris := some (u0 :: us), indirect := some ia } }) p) p) p =
        some { props := mergeUnder pNode.props iNode.props, mark := none } := by
      rw [heapGet_removePlaceholder]
      exact heapGet_unmark_self _ p _ hs1p
    have hlk2 : lookupByURI (removePlaceholder (unmark (heapSet sp p
        { props := mergeUnder pNode.props iNode.props,
          mark := some { uris := some (u0 :: us), indirect := some ia } }) p) p) u0 =
        some (.node p) := by
      rw [lookupByURI_removePlaceholder, lookupByURI_unmark, lookupByURI_heapSet]
      exact hself
    simp only [hlk2, keepTruthy, jsTruthyH, if_true, hs2p, objectAssignSource]
    refine ⟨_, rfl, ?_⟩
    have hget : heapGet (heapSet (removePlaceholder (unmark (heapSet sp p
          { props := mergeUnder pNode.props iNode.props,
            mark := some { uris := some (u0 :: us), indirect := some ia } }) p) p) p
          { props := mergeUnder (mergeUnder pNode.props iNode.props) (mergeUnder pNode.props iNode.props),
            mark := none }) p =
        some { props := mergeUnder (mergeUnder pNode.props iNode.props) (mergeUnder pNode.props iNode.props),
               mark := none } :=
      heapGet_heapSet_self _ p _ _ hs2p
    refine ⟨_, hget, rfl, ?_⟩
    intro k
    have h1 : lookupAssoc (mergeUnder (mergeUnder pNode.props iNode.props)
        (mergeUnder pNode.props iNode.props)) k =
        lookupAssoc (mergeUnder pNode.props iNode.props) k := by
      rw [lookupAssoc_mergeUnder _ _ hXnd hXnd k]
      cases lookupAssoc (mergeUnder pNode.props iNode.props) k <;> simp
    rw [h1, lookupAssoc_mergeUnder pNode.props iNode.props hpnd hind k]
    cases lookupAssoc pNode.props k <;> rfl

/-- C3 witness: the immediate-merge path on a complete target `urn:t`
(siblings add `description`, the target contributes `title`), and the
patch-up path on a placeholder whose own sibling key `s` takes precedence
while the indirect value contributes `t`. -/
theorem refWithSiblings_merge_precedence_witness :
    (∃ sOut,
      dereferenceReferenceWithSiblings sharedTargetIdx 5 mergeReadyState "urn:t"
          [("description", HVal.prim (.string "d"))] "" ["siteA"] =
        some (sOut, .node mergeReadyState.nextAddr) ∧
      mergeReadyState.nextAddr ≠ 0 ∧
      ∃ ndOut, heapGet sOut mergeReadyState.nextAddr = some ndOut ∧
        ∀ k, lookupAssoc ndOut.props k =
          (match lookupAssoc [("description", HVal.prim (.string "d"))] k with
           | some v => some v
           | none => lookupAssoc [("title", HVal.prim (.string "x"))] k)) ∧
    (∃ sOut, patchStep patchReadyState = .next sOut ∧
      ∃ ndOut, heapGet sOut 1 = some ndOut ∧ ndOut.mark = none ∧
        ∀ k, lookupAssoc ndOut.props k =
          (match lookupAssoc [("s", HVal.prim (.string "w"))] k with
           | some v => some v
           | none => lookupAssoc [("t", HVal.prim (.string "v"))] k)) :=
  ⟨refWithSiblings_merge_precedence.1 sharedTargetIdx 5 mergeReadyState
      (((dereferenceReference sharedTargetIdx 5 (heapAlloc mergeReadyState none).1
        (.object [("$ref", .string "urn:t")]) "" []).getD (initState, .prim .null)).1)
      "urn:t" [("description", HVal.prim (.string "d"))] "" ["siteA"] 0
      { props := [("title", HVal.prim (.string "x"))], mark := none }
      { props := [("title", HVal.prim (.string "x"))], mark := none }
      (by decide) (by decide) (by decide) (by decide) (by decide) (by decide)
      (by decide) (by decide),
   refWithSiblings_merge_precedence.2 patchReadyState 1 [] "doc#/x" [] 0
      { props := [("s", HVal.prim (.string "w"))],
        mark := some { uris := some ["doc#/x"], indirect := some 0 } }
      { props := [("t", HVal.prim (.string "v"))], mark := none }
      (by decide) (by decide) (by decide) (by decide) (by decide) (by decide)
      (by decide) (by decide)⟩

/-- The dynamic scope walk only ever returns a node that declares a
`$dynamicAnchor` equal to the sought name — either found directly on a path
node or through the `$id`-rooted anchor lookup. -/
theorem dynamicScopeWalk_matches (idx : DynamicIndex) (refBaseURI : URI)
    (anchorName : Option String) (path : List String) :
    ∀ (candidate : Option JSONValue) (w : JSONValue),
      dynamicScopeWalk idx refBaseURI anchorName path candidate = some w →
      dynamicAnchorMatches w anchorName = true := by
  induction path with
  | nil =>
    intro c w h
    unfold dynamicScopeWalk at h
    cases h
  | cons ptr rest ih =>
    intro c w h
    unfold dynamicScopeWalk at h
    split at h
    · split at h
      · next hm =>
        cases h
        exact hm
      · split at h
        · split at h
          · split at h
            · next hm2 =>
              cases h
              exact hm2
            · exact ih _ w h
          · exact ih _ w h
        · exact ih _ w h
    · exact ih _ w h

/-- C4 (confirmed): during the dynamic scope walk, when a path node declares
an `$id` and a node is indexed at the URI formed from that `$id` plus the
dynamic-anchor name, that candidate becomes the winning target exactly when
it itself declares a `$dynamicAnchor` equal to the sought name; a node whose
same-named anchor is only a non-dynamic `$anchor` fails
`dynamicAnchorMatches` and the walk continues with the remaining path. -/
theorem dynamic_anchor_static_exclusion
    (idx : DynamicIndex) (refBaseURI : URI) (anchorName : Option String)
    (ptr : String) (rest : List String) (candidate : Option JSONValue)
    (fields : List (String × JSONValue)) (idValue : String) (ca : JSONValue)
    (hstep : dynamicStepCandidate idx refBaseURI ptr candidate = some (.object fields))
    (hno : dynamicAnchorMatches (.object fields) anchorName = false)
    (hid : lookupAssoc fields "$id" = some (.string idValue))
    (hfind : idx.find (resolveURIReference ("#" ++ anchorNameString anchorName)
      (resolveURIReference idValue (outermostBaseURIOf idx (.object fields)))) =
      some ca) :
    (dynamicAnchorMatches ca anchorName = true →
      dynamicScopeWalk idx refBaseURI anchorName (ptr :: rest) candidate = some ca) ∧
    (dynamicAnchorMatches ca anchorName = false →
      dynamicScopeWalk idx refBaseURI anchorName (ptr :: rest) candidate =
        dynamicScopeWalk idx refBaseURI anchorName rest (some (.object fields))) := by
  constructor
  · intro hca
    unfold dynamicScopeWalk
    simp only [hstep, hno, Bool.false_eq_true, if_false, hid, hfind, hca, if_true]
  · intro hca
    conv_lhs => unfold dynamicScopeWalk
    simp only [hstep, hno, Bool.false_eq_true, if_false, hid, hfind, hca]

/-- C4 witness: with the wrapper `{$id: "urn:ext"}` on the path, a node at
`urn:ext#thing` declaring only a static `$anchor: "thing"` is skipped (the
walk continues and ends with no match), while a node there declaring
`$dynamicAnchor: "thing"` wins. -/
theorem dynamic_anchor_static_exclusion_witness :
    (dynamicScopeWalk dynStaticAnchorIdx "doc" (some "thing") ["/wrapper"]
        (some dynStaticAnchorIdx.root) =
      dynamicScopeWalk dynStaticAnchorIdx "doc" (some "thing") [] (some dynWrapperNode)) ∧
    (dynamicScopeWalk dynDynamicAnchorIdx "doc" (some "thing") ["/wrapper"]
        (some dynDynamicAnchorIdx.root) = some dynRichTarget) :=
  ⟨(dynamic_anchor_static_exclusion dynStaticAnchorIdx "doc" (some "thing") "/wrapper"
      [] (some dynStaticAnchorIdx.root) [("$id", JSONValue.string "urn:ext")] "urn:ext"
      dynStaticAnchorNode (by decide) (by decide) (by decide) (by decide)).2 (by decide),
   (dynamic_anchor_static_exclusion dynDynamicAnchorIdx "doc" (some "thing") "/wrapper"
      [] (some dynDynamicAnchorIdx.root) [("$id", JSONValue.string "urn:ext")] "urn:ext"
      dynRichTarget (by decide) (by decide) (by decide) (by decide)).1 (by decide)⟩

/-- C5 (confirmed): when the statically resolved target URI of a dynamic
reference carries a JSON Pointer fragment, `dereferenceDynamicReference`
returns exactly the statically resolved target and performs no dynamic
scope search, whatever dynamic scope path is supplied. -/
theorem dynamic_ref_pointer_fragment_plain
    (idx : DynamicIndex) (resolvedURI refBaseURI : URI) (f : String)
    (hfrag : (splitFragment resolvedURI).2 = some f)
    (hptr : isJSONPointerString f = true) (schemaPath : List String) :
    dereferenceDynamicReference idx resolvedURI refBaseURI schemaPath =
      idx.find resolvedURI := by
  have hp : pointerFragment resolvedURI = true := by
    unfold pointerFragment
    simp only [hfrag]
    exact hptr
  unfold dereferenceDynamicReference
  simp only [hp, if_true]

/-- C5 witness: the dynamic reference whose static target URI is
`doc#/defs/a` (a pointer fragment) resolves exactly to the indexed node at
that URI, with a non-trivial scope path supplied. -/
theorem dynamic_ref_pointer_fragment_plain_witness :
    dereferenceDynamicReference dynStaticAnchorIdx "doc#/defs/a" "doc" ["/wrapper"] =
      dynStaticAnchorIdx.find "doc#/defs/a" :=
  dynamic_ref_pointer_fragment_plain dynStaticAnchorIdx "doc#/defs/a" "doc" "/defs/a"
    (by decide) (by decide) ["/wrapper"]

/-- C6 (confirmed): when the whole dynamic scope walk finds no node with a
matching `$dynamicAnchor` (the walk returns nothing — and by
`dynamicScopeWalk_matches`, whatever it returns always carries the matching
anchor, either directly or via the `$id`-rooted lookup),
`dereferenceDynamicReference` returns the original statically resolved
target rather than failing. -/
theorem dynamic_walk_fallback_static_target
    (idx : DynamicIndex) (resolvedURI refBaseURI : URI) (path : List String)
    (ds : JSONValue)
    (hfind : idx.find resolvedURI = some ds)
    (hfrag : pointerFragment resolvedURI = false) :
    (dynamicScopeWalk idx refBaseURI (jsonStringField ds "$dynamicAnchor") path
        (some idx.root) = none →
      dereferenceDynamicReference idx resolvedURI refBaseURI path = some ds) ∧
    (∀ w, dynamicScopeWalk idx refBaseURI (jsonStringField ds "$dynamicAnchor") path
        (some idx.root) = some w →
      dynamicAnchorMatches w (jsonStringField ds "$dynamicAnchor") = true) := by
  constructor
  · intro hnm
    unfold dereferenceDynamicReference
    simp only [hfrag, Bool.false_eq_true, if_false, hfind, hnm]
  · intro w hw
    exact dynamicScopeWalk_matches idx refBaseURI _ path (some idx.root) w hw

/-- C6 witness: walking the path `["/wrapper"]` past a same-named static
anchor finds no dynamic match, and the statically resolved target at
`doc#thing` is returned. -/
theorem dynamic_walk_fallback_static_target_witness :
    dereferenceDynamicReference dynStaticAnchorIdx "doc#thing" "doc" ["/wrapper"] =
      some dynStaticTarget :=
  (dynamic_walk_fallback_static_target dynStaticAnchorIdx "doc#thing" "doc"
    ["/wrapper"] dynStaticTarget (by decide) (by decide)).1 (by decide)

/-- C7 (corrected, counterexample): the dynamic scope walk does not
re-resolve every reference key it reaches.  With the path step `/items`
reaching a node that carries `$ref: "urn:sub"`, whose target declares the
matching `$dynamicAnchor` (so the claimed re-resolve-and-continue behaviour
would return that target), the resolver ignores the reference and falls back
to the statically resolved target instead. -/
theorem dynamic_walk_no_reresolution_counterexample :
    dereferenceDynamicReference dynRefStepIdx "doc#thing" "doc" ["/items"] =
      some dynStaticTarget ∧
    evaluateJSONPointer "/items" (some dynRefStepIdx.root) =
      some (.object [("$ref", .string "urn:sub")]) ∧
    dynRefStepIdx.find (resolveURIReference "urn:sub" "doc") = some dynRichTarget ∧
    dynamicAnchorMatches dynRichTarget (some "thing") = true ∧
    dynStaticTarget ≠ dynRichTarget :=
  ⟨by decide, by decide, by decide, by decide, by decide⟩

/-- C7 (corrected, amended): at each step of the dynamic scope walk,
re-resolution of a sub-reference happens exactly when the path step is the
JSON Pointer `/$ref` and its evaluated value is a string — the walk then
continues from the node found at the re-resolved URI; a step of any other
form (including `/$dynamicRef`, or a step reaching a node that carries a
reference key) is not re-resolved. -/
theorem dynamic_walk_reresolves_only_ref_step
    (idx : DynamicIndex) (refBaseURI : URI) (candidate : Option JSONValue)
    (ptr s : String) :
    (evaluateJSONPointer "/$ref" candidate = some (.string s) →
      dynamicStepCandidate idx refBaseURI "/$ref" candidate =
        idx.find (resolveURIReference s refBaseURI)) ∧
    (ptr ≠ "/$ref" →
      dynamicStepCandidate idx refBaseURI ptr candidate =
        evaluateJSONPointer ptr candidate) := by
  constructor
  · intro h
    unfold dynamicStepCandidate
    simp only [h, beq_self_eq_true, if_true]
  · intro h
    unfold dynamicStepCandidate
    have hb : (ptr == "/$ref") = false := by simp [h]
    simp only [hb, Bool.false_eq_true, if_false]

/-- C7 witness: the step `/$ref` over a node carrying `$ref: "urn:sub"` is
re-resolved to the indexed target, while the step `/items` (which reaches a
node carrying a reference key) is not. -/
theorem dynamic_walk_reresolves_only_ref_step_witness :
    (dynamicStepCandidate dynRefStepIdx "doc" "/$ref"
        (some (.object [("$ref", .string "urn:sub")])) =
      dynRefStepIdx.find (resolveURIReference "urn:sub" "doc")) ∧
    (dynamicStepCandidate dynRefStepIdx "doc" "/items" (some dynRefStepIdx.root) =
      evaluateJSONPointer "/items" (some dynRefStepIdx.root)) :=
  ⟨(dynamic_walk_reresolves_only_ref_step dynRefStepIdx "doc"
      (some (.object [("$ref", .string "urn:sub")])) "/items" "urn:sub").1 (by decide),
   (dynamic_walk_reresolves_only_ref_step dynRefStepIdx "doc"
      (some dynRefStepIdx.root) "/items" "urn:sub").2 (by decide)⟩

/-- C8 (corrected, counterexample): when the caller-supplied retrieval
callback throws, the engine propagates that exception unchanged, so the
error surfaced for `urn:x` is the callback's own message, which does not
identify the URI. -/
theorem retrieval_throw_error_not_identifying :
    retrieveDocument (.object []) "base" throwingCallback "urn:x" = .error "boom" ∧
    ¬ mentionsURI "boom" "urn:x" :=
  ⟨rfl, by decide⟩

/-- C8 (corrected, amended): for every URI other than the session base whose
document the callback cannot produce, the wrapper surfaces an error
immediately: a callback that returns nothing yields the engine's own error
naming the URI; a callback that throws has its exact error propagated
unchanged; a successful return is always a truthy document actually produced
by the callback (never a silent null); and the callback is invoked exactly
once per wrapper call (no internal retry). -/
theorem retrieval_failure_surfaced
    (schema : JSONValue) (cb : URI → Except String (Option JSONValue))
    (baseURI uri : URI) (hne : uri ≠ baseURI) :
    (cb uri = .ok none →
      retrieveDocument schema baseURI cb uri =
        .error ("Cannot retrieve URI " ++ uri) ∧
      mentionsURI ("Cannot retrieve URI " ++ uri) uri) ∧
    (∀ e, cb uri = .error e → retrieveDocument schema baseURI cb uri = .error e) ∧
    (∀ d, retrieveDocument schema baseURI cb uri = .ok d →
      cb uri = .ok (some d) ∧ jsTruthy d = true) ∧
    (retrieveDocumentTraced schema baseURI cb uri).2 = [uri] := by
  have hb : (uri == baseURI) = false := by simp [hne]
  refine ⟨?_, ?_, ?_, ?_⟩
  · intro h
    constructor
    · unfold retrieveDocument retrieveDocumentTraced
      simp only [hb, Bool.false_eq_true, if_false, h]
    · show uri.data <:+: ("Cannot retrieve URI " ++ uri).data
      rw [show ("Cannot retrieve URI " ++ uri).data =
        "Cannot retrieve URI ".data ++ uri.data from rfl]
      exact (List.suffix_append _ _).isInfix
  · intro e h
    unfold retrieveDocument retrieveDocumentTraced
    simp only [hb, Bool.false_eq_true, if_false, h]
  · intro d h
    unfold retrieveDocument retrieveDocumentTraced at h
    simp only [hb, Bool.false_eq_true, if_false] at h
    cases hc : cb uri with
    | error e =>
      simp only [hc] at h
      cases h
    | ok d? =>
      cases d? with
      | none =>
        simp only [hc] at h
        cases h
      | some d0 =>
        simp only [hc] at h
        by_cases ht : jsTruthy d0 = true
        · simp only [ht, if_true] at h
          injection h with hd
          exact ⟨by rw [hd], hd ▸ ht⟩
        · simp only [ht, Bool.false_eq_true, if_false] at h
          cases h
  · unfold retrieveDocumentTraced
    simp only [hb, Bool.false_eq_true, if_false]

/-- C8 witness: a callback returning nothing for `urn:y` surfaces the
engine's error naming `urn:y`. -/
theorem retrieval_failure_surfaced_witness :
    retrieveDocument (.object []) "base" throwingCallback "urn:y" =
        .error ("Cannot retrieve URI " ++ "urn:y") ∧
      mentionsURI ("Cannot retrieve URI " ++ "urn:y") "urn:y" :=
  (retrieval_failure_surfaced (.object []) throwingCallback "base" "urn:y"
    (by decide)).1 rfl

/-- The callback-invocation log of one wrapper call: empty for the session
base URI, the requested URI otherwise. -/
theorem retrieveDocumentTraced_log (schema : JSONValue) (baseURI : URI)
    (cb : URI → Except String (Option JSONValue)) (u : URI) :
    (retrieveDocumentTraced schema baseURI cb u).2 =
      if u == baseURI then [] else [u] := by
  unfold retrieveDocumentTraced
  split
  · rfl
  · rfl

/-- The memoized retrieval invariant is preserved and bounds the callback
log of every request sequence. -/
theorem processRequests_count (schema : JSONValue) (baseURI : URI)
    (cb : URI → Except String (Option JSONValue)) (requests : List URI) :
    ∀ st : MemoState, MemoInv baseURI st →
      (∀ u, (processRequests schema baseURI cb st requests).callbackLog.count u ≤ 1) ∧
      (processRequests schema baseURI cb st requests).callbackLog.count baseURI = 0 := by
  induction requests with
  | nil =>
    intro st hInv
    exact ⟨hInv.1, List.count_eq_zero.mpr hInv.2.2⟩
  | cons r rest ih =>
    intro st hInv
    unfold processRequests memoRetrieve
    cases hc : lookupAssoc st.cache r with
    | some d =>
      simp only [hc]
      exact ih st hInv
    | none =>
      simp only [hc]
      have hlog := retrieveDocumentTraced_log schema baseURI cb r
      have hrn : r ∉ st.callbackLog := by
        intro hm
        have hx := hInv.2.1 r hm
        rw [hc] at hx
        cases hx
      by_cases hb : r = baseURI
      · have hbt : (r == baseURI) = true := by simp [hb]
        rw [hbt, if_pos rfl] at hlog
        cases hres : (retrieveDocumentTraced schema baseURI cb r).1 with
        | ok d =>
          simp only [hres]
          apply ih
          refine ⟨?_, ?_, ?_⟩
          · intro u
            rw [hlog, List.append_nil]
            exact hInv.1 u
          · intro u hm
            rw [hlog, List.append_nil] at hm
            rw [lookupAssoc_setAssocKey]
            by_cases hu : u = r
            · simp [hu]
            · simp only [hu, if_false]
              exact hInv.2.1 u hm
          · rw [hlog, List.append_nil]
            exact hInv.2.2
        | error e =>
          simp only [hres]
          rw [hlog, List.append_nil]
          exact ⟨hInv.1, List.count_eq_zero.mpr hInv.2.2⟩
      · have hbf : (r == baseURI) = false := by simp [hb]
        rw [hbf] at hlog
        simp only [Bool.false_eq_true, if_false] at hlog
        have hcount : ∀ u, (st.callbackLog ++ [r]).count u ≤ 1 := by
          intro u
          rw [List.count_append]
          by_cases hu : u = r
          · subst hu
            have h0 : st.callbackLog.count u = 0 := List.count_eq_zero.mpr hrn
            rw [h0]
            simp [List.count_cons]
          · have h1 : List.count u [r] = 0 := by
              apply List.count_eq_zero.mpr
              simp [hu]
            rw [h1, Nat.add_zero]
            exact hInv.1 u
        have hbase : (st.callbackLog ++ [r]).count baseURI = 0 := by
          apply List.count_eq_zero.mpr
          intro hm
          rw [List.mem_append] at hm
          cases hm with
          | inl hm => exact hInv.2.2 hm
          | inr hm =>
            rw [List.mem_singleton] at hm
            exact hb hm.symm
        cases hres : (retrieveDocumentTraced schema baseURI cb r).1 with
        | ok d =>
          simp only [hres]
          apply ih
          refine ⟨?_, ?_, ?_⟩
          · intro u
            rw [hlog]
            exact hcount u
          · intro u hm
            rw [hlog, List.mem_append] at hm
            rw [lookupAssoc_setAssocKey]
            by_cases hu : u = r
            · simp [hu]
            · simp only [hu, if_false]
              cases hm with
              | inl hm2 => exact hInv.2.1 u hm2
              | inr hm2 =>
                rw [List.mem_singleton] at hm2
                exact absurd hm2 hu
          · rw [hlog]
            exact List.count_eq_zero.mp hbase
        | error e =>
          simp only [hres]
          rw [hlog]
          exact ⟨hcount, hbase⟩

/-- C9 (confirmed): within one session, the caller-supplied retrieval
callback is invoked at most once per absolute URI — a second request for the
same URI is served from the memoized cache — and a request for the session
base URI is served from the root schema argument without invoking the
callback at all (its callback count is zero). -/
theorem retrieve_memoized_at_most_once
    (schema : JSONValue) (baseURI : URI)
    (cb : URI → Except String (Option JSONValue)) (requests : List URI) (u : URI) :
    (processRequests schema baseURI cb initMemo requests).callbackLog.count u ≤ 1 ∧
    (processRequests schema baseURI cb initMemo requests).callbackLog.count baseURI
      = 0 := by
  have h := processRequests_count schema baseURI cb requests initMemo
    ⟨fun _ => by simp [initMemo], fun u hm => absurd hm (by simp [initMemo]),
     by simp [initMemo]⟩
  exact ⟨h.1 u, h.2⟩

/-- C10 (confirmed): every compiled keyword validator accepts instances
outside its keyword's applicable JSON type: for every non-array instance the
`maxItems` and `uniqueItems` validators return the plain valid output
(without consulting the bound or comparing any items), and for every
non-object instance the `dependentRequired` validator returns the plain
valid output (without consulting the dependency map). -/
theorem validators_accept_other_types
    (maxItems : Int) (failFast : Bool)
    (dependentRequired : List (String × List String))
    (schemaLocation instanceLocation : String) (inst1 inst2 : JSONValue)
    (h1 : isJSONArray inst1 = false) (h2 : isJSONObject inst2 = false) :
    maxItemsValidate maxItems schemaLocation instanceLocation inst1 =
      { valid := true, schemaLocation := schemaLocation, schemaKeyword := none,
        instanceLocation := instanceLocation, message := none } ∧
    uniqueItemsValidate failFast schemaLocation instanceLocation inst1 =
      { valid := true, schemaLocation := schemaLocation, schemaKeyword := none,
        instanceLocation := instanceLocation, message := none } ∧
    dependentRequiredValidate dependentRequired failFast schemaLocation
        instanceLocation inst2 =
      { valid := true, schemaLocation := schemaLocation, schemaKeyword := none,
        instanceLocation := instanceLocation, message := none } := by
  refine ⟨?_, ?_, ?_⟩
  · unfold maxItemsValidate
    simp only [h1, Bool.not_false, if_true]
  · unfold uniqueItemsValidate
    simp only [h1, Bool.not_false, if_true]
  · unfold dependentRequiredValidate
    simp only [h2, Bool.not_false, if_true]

/-- C10 witness: a string instance for the array-keyword validators and a
number instance for `dependentRequired` are accepted unchanged. -/
theorem validators_accept_other_types_witness :
    maxItemsValidate 2 "/s" "/i" (.string "x") =
      { valid := true, schemaLocation := "/s", schemaKeyword := none,
        instanceLocation := "/i", message := none } ∧
    uniqueItemsValidate true "/s" "/i" (.string "x") =
      { valid := true, schemaLocation := "/s", schemaKeyword := none,
        instanceLocation := "/i", message := none } ∧
    dependentRequiredValidate [("a", ["b"])] true "/s" "/i" (.number 3) =
      { valid := true, schemaLocation := "/s", schemaKeyword := none,
        instanceLocation := "/i", message := none } :=
  validators_accept_other_types 2 true [("a", ["b"])] "/s" "/i" (.string "x")
    (.number 3) (by decide) (by decide)
